import Mathlib

/-!
Verification of the storeman Telegram file-dump bot (src/main.py and
src/setup_webhook.py) against its natural-language specification.

The program's token codec pipeline is `json.dumps` / `base64.urlsafe_b64encode`
on the way out and `base64.urlsafe_b64decode` / `json.loads` on the way back,
with UTF-8 in between.  Those library layers are embedded here byte-for-byte
faithfully on the fragment the program exercises: bytes are naturals below 256,
Python strings are lists of characters, and JSON numbers are integers (the
program only ever serializes Telegram message identifiers, which are integers;
float literals are outside the modelled fragment and make the modelled parser
fail where Python would produce a float).
-/

namespace Storeman

/-! ## Decimal rendering of integers (Python `str(int)` as used by `json.dumps`) -/

/-- Character for one decimal digit value below ten. -/
def digitChar (n : Nat) : Char := Char.ofNat (48 + n)

/-- Numeric value of a decimal digit character. -/
def digitVal (c : Char) : Nat := c.toNat - 48

/-- Decimal digit test on a character. -/
def isDigitCh (c : Char) : Bool := 48 ≤ c.toNat && c.toNat ≤ 57

/-- Decimal digits of a positive natural, least significant first. -/
def natRevDigits : Nat → List Char
  | 0 => []
  | n + 1 => digitChar ((n + 1) % 10) :: natRevDigits ((n + 1) / 10)
decreasing_by exact Nat.div_lt_self (Nat.succ_pos n) (by decide)

/-- Decimal rendering of a natural number. -/
def natRepr (k : Nat) : List Char := if k = 0 then ['0'] else (natRevDigits k).reverse

/-- Decimal rendering of an integer, matching Python `str`. -/
def intRepr (i : Int) : List Char :=
  if i < 0 then '-' :: natRepr i.natAbs else natRepr i.toNat

theorem digitVal_digitChar : ∀ k, k < 10 → digitVal (digitChar k) = k := by decide

theorem isDigitCh_digitChar : ∀ k, k < 10 → isDigitCh (digitChar k) = true := by decide

theorem natRevDigits_digits (n : Nat) : ∀ c ∈ natRevDigits n, isDigitCh c = true := by
  induction n using Nat.strong_induction_on with
  | _ n ih =>
    match n with
    | 0 => intro c hc; simp [natRevDigits] at hc
    | m + 1 =>
      intro c hc
      rw [natRevDigits] at hc
      rcases List.mem_cons.mp hc with h | h
      · subst h; exact isDigitCh_digitChar _ (Nat.mod_lt _ (by decide))
      · exact ih ((m + 1) / 10) (Nat.div_lt_self (Nat.succ_pos m) (by decide)) c h

theorem natRepr_digits (n : Nat) : ∀ c ∈ natRepr n, isDigitCh c = true := by
  intro c hc
  unfold natRepr at hc
  by_cases h : n = 0
  · simp [h] at hc; subst hc; decide
  · rw [if_neg h, List.mem_reverse] at hc
    exact natRevDigits_digits n c hc

theorem natRepr_ne_nil (n : Nat) : natRepr n ≠ [] := by
  unfold natRepr
  by_cases h : n = 0
  · simp [h]
  · rw [if_neg h]
    intro hrev
    rw [List.reverse_eq_nil_iff] at hrev
    cases n with
    | zero => exact h rfl
    | succ m => simp [natRevDigits] at hrev

/-! ## Reading decimal digits back -/

/-- Splits the longest decimal-digit run off the front of a character list. -/
def takeDigits : List Char → List Char × List Char
  | [] => ([], [])
  | c :: cs =>
    if isDigitCh c then
      let p := takeDigits cs
      (c :: p.1, p.2)
    else ([], c :: cs)

/-- Value of a list of decimal digit characters, most significant first. -/
def digitsToNat (ds : List Char) : Nat :=
  ds.foldl (fun a c => a * 10 + digitVal c) 0

theorem takeDigits_append (pre rest : List Char)
    (hds : ∀ c ∈ pre, isDigitCh c = true)
    (hrest : ∀ c, rest.head? = some c → isDigitCh c = false) :
    takeDigits (pre ++ rest) = (pre, rest) := by
  induction pre with
  | nil =>
    cases rest with
    | nil => rfl
    | cons c cs =>
      have := hrest c rfl
      simp [takeDigits, this]
  | cons c cs ih =>
    have hc := hds c (List.mem_cons_self c cs)
    have := ih (fun x hx => hds x (List.mem_cons_of_mem c hx))
    simp [takeDigits, hc, this]

theorem foldl_natRevDigits (n : Nat) : ∀ acc : Nat,
    List.foldl (fun a c => a * 10 + digitVal c) acc (natRevDigits n).reverse
      = acc * 10 ^ (natRevDigits n).length + n := by
  induction n using Nat.strong_induction_on with
  | _ n ih =>
    match n with
    | 0 => intro acc; simp [natRevDigits]
    | m + 1 =>
      intro acc
      rw [natRevDigits, List.reverse_cons, List.foldl_append]
      rw [ih ((m + 1) / 10) (Nat.div_lt_self (Nat.succ_pos m) (by decide)) acc]
      simp only [List.foldl_cons, List.foldl_nil, List.length_cons]
      rw [digitVal_digitChar _ (Nat.mod_lt _ (by decide))]
      have hdm : 10 * ((m + 1) / 10) + (m + 1) % 10 = m + 1 := Nat.div_add_mod (m + 1) 10
      rw [pow_succ, ← mul_assoc]
      set X := acc * 10 ^ (natRevDigits ((m + 1) / 10)).length with hX
      omega

theorem digitsToNat_natRepr (n : Nat) : digitsToNat (natRepr n) = n := by
  unfold digitsToNat natRepr
  by_cases h : n = 0
  · simp [h]; decide
  · rw [if_neg h, foldl_natRevDigits n 0]
    simp

/-! ## Base64, URL-safe alphabet (Python `base64.urlsafe_b64encode` / `..decode`) -/

/-- Encoding character for a six-bit value. -/
def b64Char (n : Nat) : Char :=
  if n < 26 then Char.ofNat (65 + n)
  else if n < 52 then Char.ofNat (71 + n)
  else if n < 62 then Char.ofNat (n - 4)
  else if n = 62 then '-' else '_'

/-- Six-bit value of a base64 character; accepts both the URL-safe and the
standard alphabet, exactly as Python's decode pipeline does after its
urlsafe-to-standard translation. -/
def b64Val (c : Char) : Option Nat :=
  if 65 ≤ c.toNat ∧ c.toNat ≤ 90 then some (c.toNat - 65)
  else if 97 ≤ c.toNat ∧ c.toNat ≤ 122 then some (c.toNat - 71)
  else if 48 ≤ c.toNat ∧ c.toNat ≤ 57 then some (c.toNat + 4)
  else if c = '-' ∨ c = '+' then some 62
  else if c = '_' ∨ c = '/' then some 63
  else none

/-- Base64 encoding of a byte list, with padding, as `urlsafe_b64encode`. -/
def b64encode : List Nat → List Char
  | [] => []
  | [a] => [b64Char (a / 4), b64Char (a % 4 * 16), '=', '=']
  | [a, b] => [b64Char (a / 4), b64Char (a % 4 * 16 + b / 16), b64Char (b % 16 * 4), '=']
  | a :: b :: c :: rest =>
      b64Char (a / 4) :: b64Char (a % 4 * 16 + b / 16) ::
        b64Char (b % 16 * 4 + c / 64) :: b64Char (c % 64) :: b64encode rest

/-- One scanned base64 symbol: a six-bit value or a padding mark. -/
inductive B64Tok where
  | v (n : Nat)
  | pad
deriving DecidableEq

/-- Scanning pass of the decoder: characters outside the alphabet are
discarded, as Python's lenient (validate=False) decoder does. -/
def b64Scan (s : List Char) : List B64Tok :=
  s.filterMap fun c => if c = '=' then some .pad else (b64Val c).map .v

/-- Grouped decoding of scanned symbols; malformed padding yields `none`,
modelling the `binascii.Error` that Python raises. -/
def decodeGroups : List B64Tok → Option (List Nat)
  | [] => some []
  | [.v a, .v b, .pad, .pad] => some [a * 4 + b / 16]
  | [.v a, .v b, .v c, .pad] => some [a * 4 + b / 16, b % 16 * 16 + c / 4]
  | .v a :: .v b :: .v c :: .v d :: rest =>
      (decodeGroups rest).map fun t =>
        (a * 4 + b / 16) :: (b % 16 * 16 + c / 4) :: (c % 4 * 64 + d) :: t
  | _ => none

/-- Base64 decoding of a character list, as `urlsafe_b64decode` on the bytes
of the string. -/
def b64decode (s : List Char) : Option (List Nat) :=
  decodeGroups (b64Scan s)

theorem b64Val_b64Char : ∀ n, n < 64 → b64Val (b64Char n) = some n := by decide

theorem b64Char_ne_eq : ∀ n, n < 64 → (b64Char n = '=') = False := by decide

theorem b64Scan_encChar (n : Nat) (h : n < 64) (s : List Char) :
    b64Scan (b64Char n :: s) = .v n :: b64Scan s := by
  simp [b64Scan, List.filterMap_cons, b64Char_ne_eq n h, b64Val_b64Char n h]

theorem b64_roundtrip (bytes : List Nat) (h : ∀ b ∈ bytes, b < 256) :
    b64decode (b64encode bytes) = some bytes := by
  induction bytes using b64encode.induct with
  | case1 => rfl
  | case2 a =>
    have ha : a < 256 := h a (by simp)
    unfold b64decode b64encode
    rw [b64Scan_encChar _ (by omega), b64Scan_encChar _ (by omega)]
    show decodeGroups [.v (a / 4), .v (a % 4 * 16), .pad, .pad] = some [a]
    unfold decodeGroups
    have e1 : a / 4 * 4 + a % 4 * 16 / 16 = a := by omega
    rw [e1]
  | case3 a b =>
    have ha : a < 256 := h a (by simp)
    have hb : b < 256 := h b (by simp)
    unfold b64decode b64encode
    rw [b64Scan_encChar _ (by omega), b64Scan_encChar _ (by omega),
      b64Scan_encChar _ (by omega)]
    show decodeGroups [.v (a / 4), .v (a % 4 * 16 + b / 16), .v (b % 16 * 4), .pad]
      = some [a, b]
    unfold decodeGroups
    have e1 : a / 4 * 4 + (a % 4 * 16 + b / 16) / 16 = a := by omega
    have e2 : (a % 4 * 16 + b / 16) % 16 * 16 + b % 16 * 4 / 4 = b := by omega
    rw [e1, e2]
  | case4 a b c rest ih =>
    have ha : a < 256 := h a (by simp)
    have hb : b < 256 := h b (by simp)
    have hc : c < 256 := h c (by simp)
    have hrest : ∀ x ∈ rest, x < 256 := fun x hx => h x (by simp [hx])
    unfold b64decode b64encode
    rw [b64Scan_encChar _ (by omega), b64Scan_encChar _ (by omega),
      b64Scan_encChar _ (by omega), b64Scan_encChar _ (by omega)]
    show decodeGroups (.v (a / 4) :: .v (a % 4 * 16 + b / 16) ::
      .v (b % 16 * 4 + c / 64) :: .v (c % 64) :: b64Scan (b64encode rest)) = _
    unfold decodeGroups
    unfold b64decode at ih
    rw [ih hrest]
    have e1 : a / 4 * 4 + (a % 4 * 16 + b / 16) / 16 = a := by omega
    have e2 : (a % 4 * 16 + b / 16) % 16 * 16 + (b % 16 * 4 + c / 64) / 4 = b := by omega
    have e3 : (b % 16 * 4 + c / 64) % 4 * 64 + c % 64 = c := by omega
    simp only [e1, e2, e3]
    rfl

/-! ## UTF-8 (Python `str.encode` / `bytes.decode`) -/

/-- Bytes of one character under UTF-8. -/
def utf8EncodeChar (c : Char) : List Nat :=
  if c.toNat < 128 then [c.toNat]
  else if c.toNat < 2048 then [192 + c.toNat / 64, 128 + c.toNat % 64]
  else if c.toNat < 65536 then
    [224 + c.toNat / 4096, 128 + c.toNat / 64 % 64, 128 + c.toNat % 64]
  else
    [240 + c.toNat / 262144, 128 + c.toNat / 4096 % 64,
      128 + c.toNat / 64 % 64, 128 + c.toNat % 64]

/-- UTF-8 encoding of a character list. -/
def utf8Encode (s : List Char) : List Nat := s.flatMap utf8EncodeChar

/-- Continuation-byte test. -/
def isContByte (b : Nat) : Bool := 128 ≤ b && b < 192

mutual

/-- Strict UTF-8 decoding, rejecting stray continuations, overlong forms,
surrogates and out-of-range sequences, as Python's default strict decoder. -/
def utf8Decode : List Nat → Option (List Char)
  | [] => some []
  | b :: rest =>
    if b < 128 then (utf8Decode rest).map (Char.ofNat b :: ·)
    else utf8DecodeMB b rest
termination_by l => 2 * l.length

/-- Multi-byte sequence decoding for a lead byte of 128 or above. -/
def utf8DecodeMB (b : Nat) (rest : List Nat) : Option (List Char) :=
  if b < 194 then none
  else if b < 224 then
    match rest with
    | b2 :: rest2 =>
      if isContByte b2 then
        (utf8Decode rest2).map (Char.ofNat ((b - 192) * 64 + (b2 - 128)) :: ·)
      else none
    | [] => none
  else if b < 240 then
    match rest with
    | b2 :: b3 :: rest3 =>
      if isContByte b2 && isContByte b3 then
        if (b - 224) * 4096 + (b2 - 128) * 64 + (b3 - 128) < 2048 ∨
            (55296 ≤ (b - 224) * 4096 + (b2 - 128) * 64 + (b3 - 128) ∧
              (b - 224) * 4096 + (b2 - 128) * 64 + (b3 - 128) < 57344) then none
        else
          (utf8Decode rest3).map
            (Char.ofNat ((b - 224) * 4096 + (b2 - 128) * 64 + (b3 - 128)) :: ·)
      else none
    | _ => none
  else if b < 245 then
    match rest with
    | b2 :: b3 :: b4 :: rest4 =>
      if isContByte b2 && isContByte b3 && isContByte b4 then
        if (b - 240) * 262144 + (b2 - 128) * 4096 + (b3 - 128) * 64 + (b4 - 128) < 65536 ∨
            1114112 ≤ (b - 240) * 262144 + (b2 - 128) * 4096 + (b3 - 128) * 64 + (b4 - 128)
          then none
        else
          (utf8Decode rest4).map
            (Char.ofNat
              ((b - 240) * 262144 + (b2 - 128) * 4096 + (b3 - 128) * 64 + (b4 - 128)) :: ·)
      else none
    | _ => none
  else none
termination_by 2 * rest.length + 1

end

theorem utf8EncodeChar_ascii (c : Char) (h : c.toNat < 128) :
    utf8EncodeChar c = [c.toNat] := by
  unfold utf8EncodeChar
  rw [if_pos h]

theorem utf8Encode_bytes_lt (s : List Char) : ∀ b ∈ utf8Encode s, b < 256 := by
  intro b hb
  unfold utf8Encode at hb
  rw [List.mem_flatMap] at hb
  obtain ⟨c, _, hbc⟩ := hb
  have hval : c.toNat < 1114112 := by
    rcases c.valid with h | ⟨_, h⟩ <;> simp [Char.toNat] <;> omega
  unfold utf8EncodeChar at hbc
  split at hbc
  · simp at hbc; omega
  · split at hbc
    · simp at hbc; rcases hbc with h | h <;> omega
    · split at hbc
      · simp at hbc; rcases hbc with h | h | h <;> omega
      · simp at hbc; rcases hbc with h | h | h | h <;> omega

theorem utf8_roundtrip_ascii (s : List Char) (h : ∀ c ∈ s, c.toNat < 128) :
    utf8Decode (utf8Encode s) = some s := by
  induction s with
  | nil => rw [show utf8Encode [] = [] from rfl, utf8Decode]
  | cons c cs ih =>
    have hc : c.toNat < 128 := h c (by simp)
    have hcs : ∀ x ∈ cs, x.toNat < 128 := fun x hx => h x (by simp [hx])
    unfold utf8Encode
    rw [List.flatMap_cons, utf8EncodeChar_ascii c hc]
    show utf8Decode (c.toNat :: cs.flatMap utf8EncodeChar) = _
    rw [utf8Decode, if_pos hc]
    show (utf8Decode (utf8Encode cs)).map _ = _
    rw [ih hcs, Option.map_some', Char.ofNat_toNat]

/-! ## JSON values (the fragment `json.dumps` / `json.loads` exercises here) -/

/-- JSON value with integer numerics. -/
inductive Json where
  | null
  | bool (b : Bool)
  | num (i : Int)
  | str (s : List Char)
  | arr (xs : List Json)
  | obj (kvs : List (List Char × Json))
deriving Inhabited

/-- Hexadecimal digit character for a value below sixteen. -/
def hexChar (n : Nat) : Char :=
  if n < 10 then Char.ofNat (48 + n) else Char.ofNat (87 + n)

/-- Four-digit lowercase hex rendering, as Python json's \u escapes. -/
def hex4 (n : Nat) : List Char :=
  [hexChar (n / 4096 % 16), hexChar (n / 256 % 16), hexChar (n / 16 % 16), hexChar (n % 16)]

/-- Escaping of one character inside a JSON string literal, following
`json.dumps` with its default ensure_ascii=True on the basic plane. -/
def escapeChar (c : Char) : List Char :=
  if c = '"' then ['\\', '"']
  else if c = '\\' then ['\\', '\\']
  else if c = Char.ofNat 8 then ['\\', 'b']
  else if c = Char.ofNat 9 then ['\\', 't']
  else if c = Char.ofNat 10 then ['\\', 'n']
  else if c = Char.ofNat 12 then ['\\', 'f']
  else if c = Char.ofNat 13 then ['\\', 'r']
  else if c.toNat < 32 ∨ 127 ≤ c.toNat then '\\' :: 'u' :: hex4 c.toNat
  else [c]

/-- Rendering of a JSON string literal with its quotes. -/
def dumpString (s : List Char) : List Char :=
  '"' :: (s.flatMap escapeChar ++ ['"'])

mutual

/-- Serialization following `json.dumps` with its default separators. -/
def jsonDumps : Json → List Char
  | .null => 'n' :: 'u' :: 'l' :: 'l' :: []
  | .bool v => if v then 't' :: 'r' :: 'u' :: 'e' :: [] else 'f' :: 'a' :: 'l' :: 's' :: 'e' :: []
  | .num i => intRepr i
  | .str s => dumpString s
  | .arr xs => '[' :: (jsonDumpsList xs ++ [']'])
  | .obj kvs => '{' :: (jsonDumpsPairs kvs ++ ['}'])

/-- Comma-separated renderings of array elements. -/
def jsonDumpsList : List Json → List Char
  | [] => []
  | [x] => jsonDumps x
  | x :: y :: rest => jsonDumps x ++ ',' :: ' ' :: jsonDumpsList (y :: rest)

/-- Comma-separated renderings of object members. -/
def jsonDumpsPairs : List (List Char × Json) → List Char
  | [] => []
  | [(k, v)] => dumpString k ++ ':' :: ' ' :: jsonDumps v
  | (k, v) :: p :: rest =>
      dumpString k ++ ':' :: ' ' :: jsonDumps v ++ ',' :: ' ' :: jsonDumpsPairs (p :: rest)

end

/-! ## JSON parsing (the fragment of `json.loads` the program exercises) -/

/-- Whitespace test of the JSON grammar. -/
def isWsCh (c : Char) : Bool :=
  c.toNat = 32 || c.toNat = 9 || c.toNat = 10 || c.toNat = 13

/-- Drops leading JSON whitespace. -/
def skipWs : List Char → List Char
  | [] => []
  | c :: cs => if isWsCh c then skipWs cs else c :: cs

/-- Value of one hexadecimal digit character. -/
def hexVal (c : Char) : Option Nat :=
  if 48 ≤ c.toNat ∧ c.toNat ≤ 57 then some (c.toNat - 48)
  else if 97 ≤ c.toNat ∧ c.toNat ≤ 102 then some (c.toNat - 87)
  else if 65 ≤ c.toNat ∧ c.toNat ≤ 70 then some (c.toNat - 55)
  else none

/-- Single-character escapes of the JSON grammar. -/
def escDecode (c : Char) : Option Char :=
  if c = '"' then some '"'
  else if c = '\\' then some '\\'
  else if c = '/' then some '/'
  else if c = 'b' then some (Char.ofNat 8)
  else if c = 'f' then some (Char.ofNat 12)
  else if c = 'n' then some (Char.ofNat 10)
  else if c = 'r' then some (Char.ofNat 13)
  else if c = 't' then some (Char.ofNat 9)
  else none

/-- Parses the body of a string literal after its opening quote, returning the
decoded characters and the input following the closing quote. -/
def parseStringBody : List Char → Option (List Char × List Char)
  | [] => none
  | c :: cs =>
    if c = '"' then some ([], cs)
    else if c = '\\' then
      match cs with
      | [] => none
      | e :: cs2 =>
        if e = 'u' then
          match cs2 with
          | h1 :: h2 :: h3 :: h4 :: cs3 =>
            match hexVal h1, hexVal h2, hexVal h3, hexVal h4 with
            | some a, some b, some x, some d =>
              (parseStringBody cs3).map fun p =>
                (Char.ofNat (a * 4096 + b * 256 + x * 16 + d) :: p.1, p.2)
            | _, _, _, _ => none
          | _ => none
        else
          match escDecode e with
          | some ch => (parseStringBody cs2).map fun p => (ch :: p.1, p.2)
          | none => none
    else if c.toNat < 32 then none
    else (parseStringBody cs).map fun p => (c :: p.1, p.2)

/-- Parses an integer literal (the numeric fragment modelled here; a fraction
or exponent following the digits is not consumed, so a float literal makes the
surrounding parse fail where Python would build a float). -/
def parseNumber (s : List Char) : Option (Json × List Char) :=
  match s with
  | [] => none
  | c :: rest =>
    if c = '-' then
      let p := takeDigits rest
      if p.1 = [] then none else some (.num (-(digitsToNat p.1 : Int)), p.2)
    else
      let p := takeDigits (c :: rest)
      if p.1 = [] then none else some (.num ((digitsToNat p.1 : Int)), p.2)

mutual

/-- Recursive-descent parser for one JSON value, with a recursion budget. -/
def parseValue : Nat → List Char → Option (Json × List Char)
  | 0, _ => none
  | f + 1, s =>
    match skipWs s with
    | [] => none
    | c :: cs => parseValueCore f c cs
termination_by f => 8 * f

/-- Dispatch on the first significant character of a value. -/
def parseValueCore (f : Nat) (c : Char) (cs : List Char) : Option (Json × List Char) :=
  if c = 'n' then
    match cs with
    | 'u' :: 'l' :: 'l' :: r => some (.null, r)
    | _ => none
  else if c = 't' then
    match cs with
    | 'r' :: 'u' :: 'e' :: r => some (.bool true, r)
    | _ => none
  else if c = 'f' then
    match cs with
    | 'a' :: 'l' :: 's' :: 'e' :: r => some (.bool false, r)
    | _ => none
  else if c = '"' then
    (parseStringBody cs).map fun p => (.str p.1, p.2)
  else if c = '[' then
    match skipWs cs with
    | [] => none
    | c2 :: cs2 =>
      if c2 = ']' then some (.arr [], cs2)
      else (parseItems f (c2 :: cs2)).map fun p => (.arr p.1, p.2)
  else if c = '{' then
    match skipWs cs with
    | [] => none
    | c2 :: cs2 =>
      if c2 = '}' then some (.obj [], cs2)
      else (parsePairs f (c2 :: cs2)).map fun p => (.obj p.1, p.2)
  else parseNumber (c :: cs)
termination_by 8 * f + 7

/-- Parses the comma-separated elements of a non-empty array up to the
closing bracket. -/
def parseItems : Nat → List Char → Option (List Json × List Char)
  | 0, _ => none
  | f + 1, s =>
    match parseValue (f + 1) s with
    | none => none
    | some (v, rest) =>
      match skipWs rest with
      | ',' :: rest2 => (parseItems f rest2).map fun p => (v :: p.1, p.2)
      | ']' :: rest2 => some ([v], rest2)
      | _ => none
termination_by f => 8 * f + 1

/-- Parses the comma-separated members of a non-empty object up to the
closing brace. -/
def parsePairs : Nat → List Char → Option (List (List Char × Json) × List Char)
  | 0, _ => none
  | f + 1, s =>
    match skipWs s with
    | '"' :: cs => parsePairsKey f cs
    | _ => none
termination_by f => 8 * f + 2

/-- Parses an object member's key string after its opening quote. -/
def parsePairsKey (f : Nat) (cs : List Char) :
    Option (List (List Char × Json) × List Char) :=
  match parseStringBody cs with
  | none => none
  | some (k, rest) => parsePairsColon f k rest
termination_by 8 * f + 6

/-- Expects the colon after an object member's key. -/
def parsePairsColon (f : Nat) (k : List Char) (rest : List Char) :
    Option (List (List Char × Json) × List Char) :=
  match skipWs rest with
  | ':' :: rest2 => parsePairsVal f k rest2
  | _ => none
termination_by 8 * f + 5

/-- Parses an object member's value. -/
def parsePairsVal (f : Nat) (k : List Char) (rest2 : List Char) :
    Option (List (List Char × Json) × List Char) :=
  match parseValue f rest2 with
  | none => none
  | some (v, rest3) => parsePairsAfter f k v rest3
termination_by 8 * f + 4

/-- Dispatches on the separator after an object member. -/
def parsePairsAfter (f : Nat) (k : List Char) (v : Json) (rest3 : List Char) :
    Option (List (List Char × Json) × List Char) :=
  match skipWs rest3 with
  | ',' :: rest4 => (parsePairs f rest4).map fun p => ((k, v) :: p.1, p.2)
  | '}' :: rest4 => some ([(k, v)], rest4)
  | _ => none
termination_by 8 * f + 3

end

/-- Full-input parse, as `json.loads`: leading and trailing whitespace is
allowed, anything else after the value is an error. -/
def jsonLoads (s : List Char) : Option Json :=
  match parseValue (s.length + 1) s with
  | some (v, rest) => if skipWs rest = [] then some v else none
  | none => none

/-! ## Evaluation lemmas for the parser on serializer output -/

theorem skipWs_cons_nonws (c : Char) (cs : List Char) (h : isWsCh c = false) :
    skipWs (c :: cs) = c :: cs := by
  simp [skipWs, h]

theorem not_ws_of_digit (c : Char) (h : isDigitCh c = true) : isWsCh c = false := by
  unfold isDigitCh at h
  unfold isWsCh
  simp only [Bool.and_eq_true, decide_eq_true_eq] at h
  simp only [Bool.or_eq_false_iff, decide_eq_false_iff_not]
  omega

theorem ne_of_isDigitCh {c : Char} (h : isDigitCh c = true) (d : Char)
    (hd : isDigitCh d = false) : c ≠ d := by
  intro he
  subst he
  rw [h] at hd
  exact Bool.noConfusion hd

theorem parseValue_succ (f : Nat) (s : List Char) (c : Char) (cs : List Char)
    (hs : skipWs s = c :: cs) : parseValue (f + 1) s = parseValueCore f c cs := by
  rw [parseValue, hs]

theorem parseValueCore_num (f : Nat) (c : Char) (cs : List Char)
    (h : c = '-' ∨ isDigitCh c = true) :
    parseValueCore f c cs = parseNumber (c :: cs) := by
  rcases h with h | h
  · subst h
    rw [parseValueCore.eq_def, if_neg (by decide), if_neg (by decide), if_neg (by decide),
      if_neg (by decide), if_neg (by decide), if_neg (by decide)]
  · rw [parseValueCore.eq_def, if_neg (ne_of_isDigitCh h 'n' (by decide)),
      if_neg (ne_of_isDigitCh h 't' (by decide)),
      if_neg (ne_of_isDigitCh h 'f' (by decide)),
      if_neg (ne_of_isDigitCh h '"' (by decide)),
      if_neg (ne_of_isDigitCh h '[' (by decide)),
      if_neg (ne_of_isDigitCh h '{' (by decide))]

theorem parseNumber_natRepr (n : Nat) (rest : List Char)
    (hrest : ∀ c, rest.head? = some c → isDigitCh c = false) :
    parseNumber (natRepr n ++ rest) = some (.num (n : Int), rest) := by
  obtain ⟨c, cs, hcons⟩ := List.exists_cons_of_ne_nil (natRepr_ne_nil n)
  have hdig : isDigitCh c = true := natRepr_digits n c (by rw [hcons]; simp)
  have hcne : c ≠ '-' := ne_of_isDigitCh hdig '-' (by decide)
  have htake : takeDigits (c :: (cs ++ rest)) = (natRepr n, rest) := by
    rw [← List.cons_append, ← hcons]
    exact takeDigits_append _ _ (natRepr_digits n) hrest
  rw [hcons, List.cons_append, parseNumber, if_neg hcne]
  simp only [htake]
  rw [if_neg (natRepr_ne_nil n), digitsToNat_natRepr]

theorem parseNumber_intRepr (i : Int) (rest : List Char)
    (hrest : ∀ c, rest.head? = some c → isDigitCh c = false) :
    parseNumber (intRepr i ++ rest) = some (.num i, rest) := by
  by_cases hneg : i < 0
  · rw [intRepr, if_pos hneg, List.cons_append, parseNumber, if_pos rfl]
    have htake : takeDigits (natRepr i.natAbs ++ rest) = (natRepr i.natAbs, rest) :=
      takeDigits_append _ _ (natRepr_digits _) hrest
    simp only [htake]
    rw [if_neg (natRepr_ne_nil _), digitsToNat_natRepr]
    have heq : -(i.natAbs : Int) = i := by omega
    rw [heq]
  · rw [intRepr, if_neg hneg, parseNumber_natRepr _ _ hrest]
    have heq : (i.toNat : Int) = i := by omega
    rw [heq]

theorem intRepr_head (i : Int) :
    ∃ c cs, intRepr i = c :: cs ∧ (c = '-' ∨ isDigitCh c = true) := by
  by_cases hneg : i < 0
  · exact ⟨'-', natRepr i.natAbs, by rw [intRepr, if_pos hneg], Or.inl rfl⟩
  · obtain ⟨c, cs, hcons⟩ := List.exists_cons_of_ne_nil (natRepr_ne_nil i.toNat)
    refine ⟨c, cs, by rw [intRepr, if_neg hneg, hcons], Or.inr ?_⟩
    exact natRepr_digits _ c (by rw [hcons]; simp)

theorem parseValue_intRepr (f : Nat) (i : Int) (rest : List Char)
    (hrest : ∀ c, rest.head? = some c → isDigitCh c = false) :
    parseValue (f + 1) (intRepr i ++ rest) = some (.num i, rest) := by
  obtain ⟨c, cs, hc, hcd⟩ := intRepr_head i
  have hws : isWsCh c = false := by
    rcases hcd with h | h
    · subst h; decide
    · exact not_ws_of_digit c h
  have hskip : skipWs (intRepr i ++ rest) = c :: (cs ++ rest) := by
    rw [hc, List.cons_append, skipWs_cons_nonws _ _ hws]
  rw [parseValue_succ f _ c (cs ++ rest) hskip, parseValueCore_num f c _ hcd,
    ← List.cons_append, ← hc, parseNumber_intRepr i rest hrest]

theorem parseValue_ws (f : Nat) (c : Char) (s : List Char) (h : isWsCh c = true) :
    parseValue f (c :: s) = parseValue f s := by
  cases f with
  | zero => simp only [parseValue]
  | succ f =>
    simp only [parseValue]
    rw [show skipWs (c :: s) = skipWs s by simp [skipWs, h]]

theorem parseItems_ws (g : Nat) (c : Char) (s : List Char) (h : isWsCh c = true) :
    parseItems g (c :: s) = parseItems g s := by
  cases g with
  | zero => simp only [parseItems]
  | succ g =>
    simp only [parseItems]
    rw [parseValue_ws _ c s h]

theorem jsonDumpsList_single (x : Json) : jsonDumpsList [x] = jsonDumps x := by
  rw [jsonDumpsList.eq_def]

theorem jsonDumpsList_cons2 (x y : Json) (rest : List Json) :
    jsonDumpsList (x :: y :: rest) = jsonDumps x ++ ',' :: ' ' :: jsonDumpsList (y :: rest) := by
  rw [jsonDumpsList.eq_def]

theorem parseItems_nums (ids : List Int) : ∀ (f : Nat) (rest : List Char), ids ≠ [] →
    ids.length ≤ f →
    parseItems f (jsonDumpsList (ids.map .num) ++ ']' :: rest)
      = some (ids.map .num, rest) := by
  induction ids with
  | nil => intro _ _ h _; exact absurd rfl h
  | cons i tl ih =>
    intro f rest _ hf
    obtain ⟨g, rfl⟩ : ∃ m, f = m + 1 := ⟨f - 1, by simp at hf; omega⟩
    cases tl with
    | nil =>
      rw [List.map_cons, List.map_nil, jsonDumpsList_single]
      rw [show jsonDumps (.num i) = intRepr i from rfl]
      rw [parseItems, parseValue_intRepr g i (']' :: rest)
        (by intro c hc; simp at hc; subst hc; decide)]
      rfl
    | cons j tl2 =>
      have ih' := ih g rest (by simp) (by simp at hf ⊢; omega)
      rw [List.map_cons] at ih' ⊢
      rw [List.map_cons, jsonDumpsList_cons2]
      rw [show jsonDumps (.num i) = intRepr i from rfl]
      rw [List.append_assoc, List.cons_append, List.cons_append]
      rw [parseItems, parseValue_intRepr g i
        (',' :: ' ' :: (jsonDumpsList (.num j :: tl2.map .num) ++ ']' :: rest))
        (by intro c hc; simp at hc; subst hc; decide)]
      simp only []
      rw [skipWs_cons_nonws ',' _ (by decide)]
      simp only []
      rw [parseItems_ws g ' ' _ (by decide), ih']
      rfl

/-! ## Parsing serializer output: strings, arrays, and the token object -/

/-- Characters that survive JSON string escaping and re-parsing untouched. -/
def plainChar (c : Char) : Prop :=
  c ≠ '"' ∧ c ≠ '\\' ∧ 32 ≤ c.toNat ∧ c.toNat < 127

instance (c : Char) : Decidable (plainChar c) := by
  unfold plainChar
  infer_instance

theorem escapeChar_plain (c : Char) (h : plainChar c) : escapeChar c = [c] := by
  obtain ⟨h1, h2, h3, h4⟩ := h
  have hb : c ≠ Char.ofNat 8 := by intro he; rw [he] at h3; revert h3; decide
  have ht : c ≠ Char.ofNat 9 := by intro he; rw [he] at h3; revert h3; decide
  have hn : c ≠ Char.ofNat 10 := by intro he; rw [he] at h3; revert h3; decide
  have hf : c ≠ Char.ofNat 12 := by intro he; rw [he] at h3; revert h3; decide
  have hr : c ≠ Char.ofNat 13 := by intro he; rw [he] at h3; revert h3; decide
  rw [escapeChar, if_neg h1, if_neg h2, if_neg hb, if_neg ht, if_neg hn, if_neg hf,
    if_neg hr, if_neg (by omega)]

theorem flatMap_escape_plain (s : List Char) (hs : ∀ c ∈ s, plainChar c) :
    s.flatMap escapeChar = s := by
  induction s with
  | nil => rfl
  | cons c cs ih =>
    rw [List.flatMap_cons, escapeChar_plain c (hs c (by simp)),
      ih (fun x hx => hs x (by simp [hx]))]
    rfl

theorem dumpString_plain (s : List Char) (hs : ∀ c ∈ s, plainChar c) :
    dumpString s = '"' :: (s ++ ['"']) := by
  rw [dumpString, flatMap_escape_plain s hs]

theorem parseStringBody_plain (s : List Char) (hs : ∀ c ∈ s, plainChar c)
    (rest : List Char) : parseStringBody (s ++ '"' :: rest) = some (s, rest) := by
  induction s with
  | nil =>
    rw [List.nil_append, parseStringBody.eq_def]
    simp only []
    rw [if_pos trivial]
  | cons c cs ih =>
    obtain ⟨h1, h2, h3, _⟩ := hs c (by simp)
    rw [List.cons_append, parseStringBody.eq_def]
    simp only []
    rw [if_neg h1, if_neg h2, if_neg (by omega)]
    rw [ih (fun x hx => hs x (by simp [hx]))]
    rfl

theorem parseValue_str_plain (f : Nat) (sv : List Char) (hp : ∀ c ∈ sv, plainChar c)
    (rest : List Char) :
    parseValue (f + 1) ('"' :: (sv ++ '"' :: rest)) = some (.str sv, rest) := by
  rw [parseValue_succ f _ '"' (sv ++ '"' :: rest) (skipWs_cons_nonws _ _ (by decide))]
  rw [parseValueCore.eq_def, if_neg (by decide), if_neg (by decide), if_neg (by decide),
    if_pos rfl, parseStringBody_plain sv hp rest]
  rfl

theorem parsePairs_ws (g : Nat) (c : Char) (s : List Char) (h : isWsCh c = true) :
    parsePairs g (c :: s) = parsePairs g s := by
  cases g with
  | zero => simp only [parsePairs]
  | succ g =>
    simp only [parsePairs]
    rw [show skipWs (c :: s) = skipWs s by simp [skipWs, h]]

theorem jsonDumpsPairs_single (k : List Char) (v : Json) :
    jsonDumpsPairs [(k, v)] = dumpString k ++ ':' :: ' ' :: jsonDumps v := by
  rw [jsonDumpsPairs.eq_def]

theorem jsonDumpsPairs_cons2 (k : List Char) (v : Json) (p : List Char × Json)
    (rest : List (List Char × Json)) :
    jsonDumpsPairs ((k, v) :: p :: rest)
      = dumpString k ++ ':' :: ' ' :: jsonDumps v ++ ',' :: ' ' :: jsonDumpsPairs (p :: rest) := by
  rw [jsonDumpsPairs.eq_def]

theorem numHead_not_ws (c : Char) (h : c = '-' ∨ isDigitCh c = true) : isWsCh c = false := by
  rcases h with h | h
  · subst h; decide
  · exact not_ws_of_digit c h

theorem numHead_ne (c : Char) (h : c = '-' ∨ isDigitCh c = true) (d : Char)
    (hd1 : d ≠ '-') (hd2 : isDigitCh d = false) : c ≠ d := by
  rcases h with h | h
  · subst h; exact fun he => hd1 he.symm
  · exact ne_of_isDigitCh h d hd2

theorem jsonDumpsList_nums_head (ids : List Int) (h : ids ≠ []) :
    ∃ c cs, jsonDumpsList (ids.map .num) = c :: cs ∧ (c = '-' ∨ isDigitCh c = true) := by
  cases ids with
  | nil => exact absurd rfl h
  | cons i tl =>
    obtain ⟨c, cs, hc, hd⟩ := intRepr_head i
    cases tl with
    | nil =>
      refine ⟨c, cs, ?_, hd⟩
      rw [List.map_cons, List.map_nil, jsonDumpsList_single,
        show jsonDumps (.num i) = intRepr i from rfl, hc]
    | cons j tl2 =>
      refine ⟨c, cs ++ ',' :: ' ' :: jsonDumpsList (.num j :: tl2.map .num), ?_, hd⟩
      rw [List.map_cons, List.map_cons, jsonDumpsList_cons2,
        show jsonDumps (.num i) = intRepr i from rfl, hc, List.cons_append]

theorem parseValue_arr_nums (f : Nat) (ids : List Int) (rest : List Char)
    (hf : ids.length ≤ f) :
    parseValue (f + 1) ('[' :: (jsonDumpsList (ids.map .num) ++ ']' :: rest))
      = some (.arr (ids.map .num), rest) := by
  rw [parseValue_succ f _ '[' (jsonDumpsList (ids.map .num) ++ ']' :: rest)
    (skipWs_cons_nonws _ _ (by decide))]
  rw [parseValueCore.eq_def, if_neg (by decide), if_neg (by decide), if_neg (by decide),
    if_neg (by decide), if_pos rfl]
  cases ids with
  | nil =>
    rw [List.map_nil, show jsonDumpsList [] = [] from by rw [jsonDumpsList.eq_def],
      List.nil_append, skipWs_cons_nonws ']' rest (by decide)]
    simp only []
    rw [if_pos trivial]
  | cons i tl =>
    obtain ⟨c0, cs0, hL, hd0⟩ := jsonDumpsList_nums_head (i :: tl) (by simp)
    rw [hL, List.cons_append, skipWs_cons_nonws _ _ (numHead_not_ws c0 hd0)]
    simp only []
    rw [if_neg (numHead_ne c0 hd0 ']' (by decide) (by decide))]
    rw [show c0 :: (cs0 ++ ']' :: rest) = jsonDumpsList ((i :: tl).map .num) ++ ']' :: rest
      from by rw [hL, List.cons_append]]
    rw [parseItems_nums (i :: tl) f rest (by simp) hf]
    rfl

theorem parsePairs_step (f : Nat) (k : List Char) (hk : ∀ c ∈ k, plainChar c) (v : Json)
    (vrest tail : List Char) (hval : parseValue f (' ' :: vrest) = some (v, tail)) :
    parsePairs (f + 1) ('"' :: (k ++ '"' :: ':' :: ' ' :: vrest))
      = parsePairsAfter f k v tail := by
  rw [parsePairs, skipWs_cons_nonws '"' _ (by decide)]
  simp only []
  rw [parsePairsKey.eq_def, parseStringBody_plain k hk (':' :: ' ' :: vrest)]
  simp only []
  rw [parsePairsColon.eq_def, skipWs_cons_nonws ':' _ (by decide)]
  simp only []
  rw [parsePairsVal.eq_def, hval]

/-- The serialized token reference: the object `encode_token` receives from
`generate_token`. -/
def tokenJson (ft : List Char) (ids : List Int) : Json :=
  .obj [(['t'], .str ft), (['i', 'd', 's'], .arr (ids.map .num))]

theorem parseValue_token (ft : List Char) (hp : ∀ c ∈ ft, plainChar c) (ids : List Int)
    (f : Nat) (hf : ids.length + 4 ≤ f) :
    parseValue f (jsonDumps (tokenJson ft ids)) = some (tokenJson ft ids, []) := by
  obtain ⟨f1, rfl⟩ : ∃ m, f = m + 1 := ⟨f - 1, by omega⟩
  obtain ⟨f2, rfl⟩ : ∃ m, f1 = m + 1 := ⟨f1 - 1, by omega⟩
  obtain ⟨f3, rfl⟩ : ∃ m, f2 = m + 1 := ⟨f2 - 1, by omega⟩
  obtain ⟨f4, rfl⟩ : ∃ m, f3 = m + 1 := ⟨f3 - 1, by omega⟩
  have hids : ids.length ≤ f4 := by omega
  have hkt : ∀ c ∈ (['t'] : List Char), plainChar c := by intro c hc; simp at hc; subst hc; decide
  have hki : ∀ c ∈ (['i', 'd', 's'] : List Char), plainChar c := by
    intro c hc; simp at hc
    rcases hc with h | h | h <;> subst h <;> decide
  have hd : jsonDumps (tokenJson ft ids)
      = '{' :: (jsonDumpsPairs [(['t'], .str ft), (['i', 'd', 's'], .arr (ids.map .num))]
        ++ ['}']) := by
    rw [show tokenJson ft ids = Json.obj
      [(['t'], .str ft), (['i', 'd', 's'], .arr (ids.map .num))] from rfl, jsonDumps.eq_def]
  rw [hd, jsonDumpsPairs_cons2, jsonDumpsPairs_single, dumpString_plain _ hkt,
    dumpString_plain _ hki, show jsonDumps (Json.str ft) = dumpString ft from by
      rw [jsonDumps.eq_def],
    dumpString_plain ft hp, show jsonDumps (Json.arr (ids.map .num))
      = '[' :: (jsonDumpsList (ids.map .num) ++ [']']) from by rw [jsonDumps.eq_def]]
  simp only [List.cons_append, List.nil_append, List.append_assoc]
  rw [parseValue_succ (f4 + 3) _ '{' _ (skipWs_cons_nonws '{' _ (by decide))]
  rw [parseValueCore.eq_def, if_neg (by decide), if_neg (by decide), if_neg (by decide),
    if_neg (by decide), if_neg (by decide), if_pos rfl]
  rw [skipWs_cons_nonws '"' _ (by decide)]
  simp only []
  rw [if_neg (by decide)]
  have hstr : parseValue (f4 + 2) (' ' :: ('"' :: (ft ++ '"' :: ',' :: ' ' :: '"' :: 'i' ::
      'd' :: 's' :: '"' :: ':' :: ' ' :: '[' ::
        (jsonDumpsList (ids.map .num) ++ ']' :: '}' :: []))))
      = some (.str ft, ',' :: ' ' :: '"' :: 'i' :: 'd' :: 's' :: '"' :: ':' :: ' ' :: '[' ::
        (jsonDumpsList (ids.map .num) ++ ']' :: '}' :: [])) := by
    rw [parseValue_ws _ ' ' _ (by decide)]
    exact parseValue_str_plain (f4 + 1) ft hp _
  have harr : parseValue (f4 + 1) (' ' :: ('[' ::
      (jsonDumpsList (ids.map .num) ++ ']' :: '}' :: [])))
      = some (.arr (ids.map .num), '}' :: []) := by
    rw [parseValue_ws _ ' ' _ (by decide)]
    exact parseValue_arr_nums f4 ids ('}' :: []) hids
  have hp2 : parsePairs (f4 + 2) ('"' :: ('i' :: 'd' :: 's' :: '"' :: ':' :: ' ' :: '[' ::
      (jsonDumpsList (ids.map .num) ++ ']' :: '}' :: [])))
      = some ([(['i', 'd', 's'], .arr (ids.map .num))], []) := by
    rw [show ('i' :: 'd' :: 's' :: '"' :: ':' :: ' ' :: '[' ::
        (jsonDumpsList (ids.map .num) ++ ']' :: '}' :: []))
      = (['i', 'd', 's'] ++ '"' :: ':' :: ' ' :: ('[' ::
        (jsonDumpsList (ids.map .num) ++ ']' :: '}' :: []))) from rfl]
    rw [parsePairs_step (f4 + 1) ['i', 'd', 's'] hki (.arr (ids.map .num)) _ ('}' :: []) harr]
    rw [parsePairsAfter.eq_def, skipWs_cons_nonws '}' _ (by decide)]
    rfl
  have hp1 : parsePairs (f4 + 3) ('"' :: ('t' :: '"' :: ':' :: ' ' :: ('"' ::
      (ft ++ '"' :: ',' :: ' ' :: '"' :: 'i' :: 'd' :: 's' :: '"' :: ':' :: ' ' :: '[' ::
        (jsonDumpsList (ids.map .num) ++ ']' :: '}' :: [])))))
      = some ([(['t'], .str ft), (['i', 'd', 's'], .arr (ids.map .num))], []) := by
    rw [show ('t' :: '"' :: ':' :: ' ' :: ('"' :: (ft ++ '"' :: ',' :: ' ' :: '"' :: 'i' ::
        'd' :: 's' :: '"' :: ':' :: ' ' :: '[' ::
        (jsonDumpsList (ids.map .num) ++ ']' :: '}' :: []))))
      = (['t'] ++ '"' :: ':' :: ' ' :: ('"' :: (ft ++ '"' :: ',' :: ' ' :: '"' :: 'i' ::
        'd' :: 's' :: '"' :: ':' :: ' ' :: '[' ::
        (jsonDumpsList (ids.map .num) ++ ']' :: '}' :: [])))) from rfl]
    rw [parsePairs_step (f4 + 2) ['t'] hkt (.str ft) _ _ hstr]
    rw [parsePairsAfter.eq_def, skipWs_cons_nonws ',' _ (by decide)]
    simp only []
    rw [parsePairs_ws _ ' ' _ (by decide), hp2]
    rfl
  rw [hp1]
  rfl

/-! ## Python container semantics needed by `parse_token` and `start_command` -/

/-- Structural equality on JSON values, as Python `==` on the decoded data
(string/number/bool/list/dict comparisons across types are unequal on the
values this program compares). -/
def jsonEq : Json → Json → Bool
  | .null, .null => true
  | .bool a, .bool b => a == b
  | .num a, .num b => a == b
  | .str a, .str b => a == b
  | .arr a, .arr b => jsonEqList a b
  | .obj a, .obj b => jsonEqPairs a b
  | _, _ => false
where
  /-- Elementwise equality of JSON arrays. -/
  jsonEqList : List Json → List Json → Bool
    | [], [] => true
    | a :: as', b :: bs => jsonEq a b && jsonEqList as' bs
    | _, _ => false
  /-- Memberwise equality of JSON objects. -/
  jsonEqPairs : List (List Char × Json) → List (List Char × Json) → Bool
    | [], [] => true
    | (ka, va) :: as', (kb, vb) :: bs => ka == kb && jsonEq va vb && jsonEqPairs as' bs
    | _, _ => false

/-- Substring test, as Python `needle in haystack` on strings. -/
def containsSub (hay needle : List Char) : Bool :=
  if needle.isPrefixOf hay then true
  else
    match hay with
    | [] => false
    | _ :: t => containsSub t needle

/-- Python `key in data` on a decoded JSON value: membership for dicts and
lists, substring for strings, and a TypeError for every other value. -/
def pyContains (k : List Char) : Json → Except Unit Bool
  | .obj kvs => .ok (kvs.any fun kv => kv.1 == k)
  | .arr xs => .ok (xs.any fun x => jsonEq x (.str k))
  | .str s => .ok (containsSub s k)
  | _ => .error ()

/-- Last binding of a key in an object's member list; Python's dict built by
`json.loads` keeps the last occurrence of a duplicated key. -/
def objGetLast (kvs : List (List Char × Json)) (k : List Char) : Option Json :=
  match kvs with
  | [] => none
  | (k', v) :: rest =>
    match objGetLast rest k with
    | some r => some r
    | none => if k' == k then some v else none

/-- Python `data[key]` with a string key: dict lookup, a TypeError on any
non-dict value, a KeyError on a missing key. -/
def pyIndex (j : Json) (k : List Char) : Except Unit Json :=
  match j with
  | .obj kvs =>
    match objGetLast kvs k with
    | some v => .ok v
    | none => .error ()
  | _ => .error ()

/-- Python truthiness of a decoded JSON value. -/
def jsonTruthy : Json → Bool
  | .null => false
  | .bool b => b
  | .num i => i != 0
  | .str s => !s.isEmpty
  | .arr xs => !xs.isEmpty
  | .obj kvs => !kvs.isEmpty

/-- Python `for x in data`: iteration over a decoded JSON value; lists yield
elements, strings yield one-character strings, dicts yield their keys, and
every other value raises a TypeError. -/
def pyIter : Json → Except Unit (List Json)
  | .arr xs => .ok xs
  | .str s => .ok (s.map fun c => .str [c])
  | .obj kvs => .ok (kvs.map fun kv => .str kv.1)
  | _ => .error ()

/-! ## Token codec (src/main.py, `encode_token` .. `parse_token`) -/

/-- Embeds `encode_token`: JSON-serialize, UTF-8 encode, base64 encode. -/
def encode_token (data : Json) : List Char :=
  b64encode (utf8Encode (jsonDumps data))

/-- Embeds `decode_token`: base64 decode, UTF-8 decode, JSON parse; any
failure is caught and the empty dict returned. -/
def decode_token (token : List Char) : Json :=
  match b64decode token with
  | none => .obj []
  | some bytes =>
    match utf8Decode bytes with
    | none => .obj []
    | some s => (jsonLoads s).getD (.obj [])

/-- Embeds `generate_token`: the serialized reference is the two-member
object with keys t and ids. -/
def generate_token (file_type : List Char) (msg_ids : List Int) : List Char :=
  encode_token (.obj [(['t'], .str file_type), (['i', 'd', 's'], .arr (msg_ids.map .num))])

/-- Embeds `parse_token`.  The membership tests and the indexing happen
outside any exception handler in the source, so a decoded non-container value
propagates Python's TypeError; that is the `.error` outcome here. -/
def parse_token (token : List Char) : Except Unit (Json × Json) := do
  let data := decode_token token
  let b1 ← pyContains ['t'] data
  if b1 then
    let b2 ← pyContains ['i', 'd', 's'] data
    if b2 then do
      let v1 ← pyIndex data ['t']
      let v2 ← pyIndex data ['i', 'd', 's']
      return (v1, v2)
    else return (.null, .null)
  else return (.null, .null)

/-! ## The codec roundtrip on generated tokens -/

theorem jsonDumps_token_eq (ft : List Char) (hp : ∀ c ∈ ft, plainChar c) (ids : List Int) :
    jsonDumps (tokenJson ft ids)
      = '{' :: '"' :: 't' :: '"' :: ':' :: ' ' :: '"' :: (ft ++ '"' :: ',' :: ' ' :: '"' ::
        'i' :: 'd' :: 's' :: '"' :: ':' :: ' ' :: '[' ::
          (jsonDumpsList (ids.map .num) ++ ']' :: '}' :: [])) := by
  have hkt : ∀ c ∈ (['t'] : List Char), plainChar c := by
    intro c hc; simp at hc; subst hc; decide
  have hki : ∀ c ∈ (['i', 'd', 's'] : List Char), plainChar c := by
    intro c hc; simp at hc
    rcases hc with h | h | h <;> subst h <;> decide
  have h0 : jsonDumps (tokenJson ft ids)
      = '{' :: (jsonDumpsPairs [(['t'], .str ft), (['i', 'd', 's'], .arr (ids.map .num))]
        ++ ['}']) := by
    rw [show tokenJson ft ids = Json.obj
      [(['t'], .str ft), (['i', 'd', 's'], .arr (ids.map .num))] from rfl, jsonDumps.eq_def]
  rw [h0, jsonDumpsPairs_cons2, jsonDumpsPairs_single, dumpString_plain _ hkt,
    dumpString_plain _ hki, show jsonDumps (Json.str ft) = dumpString ft from by
      rw [jsonDumps.eq_def],
    dumpString_plain ft hp, show jsonDumps (Json.arr (ids.map .num))
      = '[' :: (jsonDumpsList (ids.map .num) ++ [']']) from by rw [jsonDumps.eq_def]]
  simp only [List.cons_append, List.nil_append, List.append_assoc]

theorem digit_ascii (c : Char) (h : isDigitCh c = true) : c.toNat < 128 := by
  unfold isDigitCh at h
  simp only [Bool.and_eq_true, decide_eq_true_eq] at h
  omega

theorem intRepr_ascii (i : Int) : ∀ c ∈ intRepr i, c.toNat < 128 := by
  intro c hc
  unfold intRepr at hc
  split at hc
  · rcases List.mem_cons.mp hc with h | h
    · subst h; decide
    · exact digit_ascii c (natRepr_digits _ c h)
  · exact digit_ascii c (natRepr_digits _ c hc)

theorem jsonDumpsList_nums_ascii (ids : List Int) :
    ∀ c ∈ jsonDumpsList (ids.map .num), c.toNat < 128 := by
  induction ids with
  | nil =>
    intro c hc
    rw [List.map_nil, show jsonDumpsList [] = [] from by rw [jsonDumpsList.eq_def]] at hc
    simp at hc
  | cons i tl ih =>
    intro c hc
    cases tl with
    | nil =>
      rw [List.map_cons, List.map_nil, jsonDumpsList_single,
        show jsonDumps (.num i) = intRepr i from rfl] at hc
      exact intRepr_ascii i c hc
    | cons j tl2 =>
      rw [List.map_cons] at ih
      rw [List.map_cons, List.map_cons, jsonDumpsList_cons2,
        show jsonDumps (.num i) = intRepr i from rfl] at hc
      rcases List.mem_append.mp hc with h | h
      · exact intRepr_ascii i c h
      · rcases List.mem_cons.mp h with h2 | h2
        · subst h2; decide
        · rcases List.mem_cons.mp h2 with h3 | h3
          · subst h3; decide
          · exact ih c h3

theorem jsonDumps_token_ascii (ft : List Char) (hp : ∀ c ∈ ft, plainChar c)
    (ids : List Int) : ∀ c ∈ jsonDumps (tokenJson ft ids), c.toNat < 128 := by
  intro c hc
  rw [jsonDumps_token_eq ft hp ids] at hc
  simp only [List.mem_cons, List.mem_append] at hc
  rcases hc with h | h | h | h | h | h | h | h
  · subst h; decide
  · subst h; decide
  · subst h; decide
  · subst h; decide
  · subst h; decide
  · subst h; decide
  · subst h; decide
  rcases h with h | h
  · exact (hp c h).2.2.2.trans_le (by omega)
  rcases h with h | h | h | h | h | h | h | h | h | h | h | h
  · subst h; decide
  · subst h; decide
  · subst h; decide
  · subst h; decide
  · subst h; decide
  · subst h; decide
  · subst h; decide
  · subst h; decide
  · subst h; decide
  · subst h; decide
  · subst h; decide
  rcases h with h | h | h | h
  · exact jsonDumpsList_nums_ascii ids c h
  · subst h; decide
  · subst h; decide
  · simp at h

theorem jsonDumpsList_nums_length (ids : List Int) :
    ids.length ≤ (jsonDumpsList (ids.map .num)).length := by
  induction ids with
  | nil => simp [show jsonDumpsList [] = [] from by rw [jsonDumpsList.eq_def]]
  | cons i tl ih =>
    have hi : 1 ≤ (intRepr i).length := by
      unfold intRepr
      split
      · simp
      · exact List.length_pos.mpr (natRepr_ne_nil _)
    cases tl with
    | nil =>
      rw [List.map_cons, List.map_nil, jsonDumpsList_single,
        show jsonDumps (.num i) = intRepr i from rfl]
      simpa using hi
    | cons j tl2 =>
      rw [List.map_cons] at ih
      rw [List.map_cons, List.map_cons, jsonDumpsList_cons2,
        show jsonDumps (.num i) = intRepr i from rfl]
      simp only [List.length_append, List.length_cons]
      simp only [List.length_cons] at ih
      omega

theorem decode_encode_token (ft : List Char) (hp : ∀ c ∈ ft, plainChar c)
    (ids : List Int) :
    decode_token (encode_token (tokenJson ft ids)) = tokenJson ft ids := by
  unfold decode_token encode_token
  rw [b64_roundtrip _ (utf8Encode_bytes_lt _)]
  simp only []
  rw [utf8_roundtrip_ascii _ (jsonDumps_token_ascii ft hp ids)]
  simp only []
  have hlen : ids.length + 4 ≤ (jsonDumps (tokenJson ft ids)).length + 1 := by
    rw [jsonDumps_token_eq ft hp ids]
    have := jsonDumpsList_nums_length ids
    simp only [List.length_cons, List.length_append]
    omega
  unfold jsonLoads
  rw [parseValue_token ft hp ids _ hlen]
  rfl

theorem parse_token_of_decode (token : List Char) (ft : List Char) (ids : List Int)
    (h : decode_token token = tokenJson ft ids) :
    parse_token token = .ok (.str ft, .arr (ids.map .num)) := by
  unfold parse_token
  rw [h]
  rfl

/-- Roundtrip of the token codec on every token the program generates with a
kind made of plain ASCII characters. -/
theorem parse_generate (ft : List Char) (hp : ∀ c ∈ ft, plainChar c) (ids : List Int) :
    parse_token (generate_token ft ids) = .ok (.str ft, .arr (ids.map .num)) :=
  parse_token_of_decode _ ft ids (decode_encode_token ft hp ids)

/-! ## Subscription gate (src/main.py, `is_user_subscribed` /
`check_force_subscriptions`) -/

/-- Chat-member status values of the bot API. -/
inductive MemberStatus where
  | creator
  | administrator
  | member
  | restricted
  | leftChat
  | kicked
deriving DecidableEq

/-- Statuses the gate accepts, the list the source compares against. -/
def allowedStatuses : List MemberStatus := [.member, .administrator, .creator]

/-- Result of one `get_chat_member` call: a status, or a raised error. -/
abbrev MemberEnv := String → Int → Except Unit MemberStatus

/-- Embeds `is_user_subscribed`: a successful lookup is checked against the
allowed statuses; a raising lookup is caught and treated as not subscribed. -/
def is_user_subscribed (env : MemberEnv) (user_id : Int) (channel : String) : Bool :=
  match env channel user_id with
  | .ok s => allowedStatuses.contains s
  | .error _ => false

/-- Embeds `check_force_subscriptions`: member of both channels. -/
def check_force_subscriptions (env : MemberEnv) (ch1 ch2 : String) (user_id : Int) : Bool :=
  is_user_subscribed env user_id ch1 && is_user_subscribed env user_id ch2

/-! ## Dump workflow (src/main.py, `process_file_messages` /
`process_media_group`) -/

/-- The slice of a Telegram message the dump workflow reads. -/
structure Msg where
  chat_id : Int
  message_id : Int
deriving DecidableEq

/-- Ordering of messages by their remote identifier, the sort key of
`process_media_group`. -/
def msgLe (a b : Msg) : Prop := a.message_id ≤ b.message_id

instance : DecidableRel msgLe := fun a b => Int.decLe a.message_id b.message_id

instance : IsTotal Msg msgLe := ⟨fun a b => Int.le_total a.message_id b.message_id⟩

instance : IsTrans Msg msgLe := ⟨fun _ _ _ => Int.le_trans⟩

/-- Python's stable in-place sort by message identifier. -/
def sortMsgs (msgs : List Msg) : List Msg := List.insertionSort msgLe msgs

/-- Association-list read of the pending media-group table, Python
`dict.get(mgid, [])` without the default. -/
def lookupKey (d : List (String × List Msg)) (k : String) : Option (List Msg) :=
  match d with
  | [] => none
  | (k', v) :: rest => if k' = k then some v else lookupKey rest k

/-- Removal of a key, Python `dict.pop(mgid, None)`. -/
def eraseKey (d : List (String × List Msg)) (k : String) : List (String × List Msg) :=
  d.filter fun kv => kv.1 ≠ k

/-- Appends a message to a group's pending list, Python
`media_group_dict[mgid].append(message)`. -/
def appendMsg (d : List (String × List Msg)) (k : String) (m : Msg) :
    List (String × List Msg) :=
  d.map fun kv => if kv.1 = k then (kv.1, kv.2 ++ [m]) else kv

/-- Result of one `bot.copy_message` into the dump channel: the archived
copy's message identifier, or `none` when the call raises. -/
abbrev CopyEnv := Msg → Option Int

/-- Observable outcome of a non-trivial media-group flush. -/
structure FlushOut where
  /-- Messages passed to `copy_message`, in call order. -/
  attempts : List Msg
  /-- Identifiers of the successfully archived copies, in order. -/
  dumped_ids : List Int
  /-- Kind stored in the token, b for more than one archived copy. -/
  file_type : List Char
  /-- The generated token text. -/
  token : List Char
  /-- Message the permanent link is sent as a reply to. -/
  replyTo : Option Msg

/-- Embeds `process_media_group`: read the pending entry (empty meaning an
early return that leaves the table untouched), sort by message identifier,
attempt to archive each message with per-message exception isolation, derive
the kind from the count of successes, build the token, reply to the last
sorted message, and drop the entry. -/
def process_media_group (env : CopyEnv) (dict : List (String × List Msg)) (mgid : String) :
    List (String × List Msg) × Option FlushOut :=
  let messages := (lookupKey dict mgid).getD []
  if messages.isEmpty then (dict, none)
  else
    let sorted := sortMsgs messages
    let dumped := sorted.filterMap env
    let ft := if 1 < dumped.length then ['b'] else ['s']
    (eraseKey dict mgid,
      some ⟨sorted, dumped, ft, generate_token ft dumped, sorted.getLast?⟩)

/-- Observable outcome of one admin upload event. -/
inductive UploadRes where
  /-- Non-admin sender: rejection reply, nothing else. -/
  | unauthorized
  /-- Single file archived; carries the token of the permanent link. -/
  | single (token : List Char)
  /-- Media-group member collected; carries the new pending table and
  whether a flush timer was started by this event. -/
  | grouped (newDict : List (String × List Msg)) (timerStarted : Bool)

/-- Embeds `process_file_messages`.  For a single message the `copy_message`
call sits outside any handler, so a failed copy raises out of the handler and
no token is produced; for a grouped message the entry is created on first
sight (scheduling the one-shot flush) and the message appended. -/
def process_file_messages (admin_ids : List Int) (user_id : Int) (copyRes : Option Int)
    (media_group_id : Option String) (msg : Msg) (dict : List (String × List Msg)) :
    Except Unit UploadRes :=
  if user_id ∉ admin_ids then .ok .unauthorized
  else
    match media_group_id with
    | none =>
      match copyRes with
      | some copied_id => .ok (.single (generate_token ['s'] [copied_id]))
      | none => .error ()
    | some mgid =>
      let fresh := lookupKey dict mgid = none
      let d1 := if fresh then dict ++ [(mgid, [])] else dict
      .ok (.grouped (appendMsg d1 mgid msg) (decide fresh))

/-! ## Retrieval workflow (src/main.py, `start_command`) -/

/-- Observable outcome of one `/start` invocation. -/
inductive StartRes where
  /-- No argument: welcome reply. -/
  | welcome
  /-- Falsy kind or falsy ids: invalid-link reply. -/
  | invalid
  /-- Gate failed: join/retry keyboard carrying the same token. -/
  | blocked (token : List Char)
  /-- Gate passed: items passed to `copy_message` in order, and the items
  whose copy failed (each failure replied inline, the loop continuing). -/
  | delivered (copies : List Json) (failures : List Json)

/-- Whether one delivery copy succeeds, per item. -/
abbrev DeliverEnv := Json → Bool

/-- Embeds `start_command`: parse the token (a parse TypeError propagates),
check truthiness of both components, then the gate, then deliver each id with
per-item exception isolation. -/
def start_command (genv : MemberEnv) (ch1 ch2 : String) (user_id : Int)
    (denv : DeliverEnv) (args : List (List Char)) : Except Unit StartRes :=
  match args with
  | [] => .ok .welcome
  | token :: _ => do
    let (file_type, msg_ids) ← parse_token token
    if !jsonTruthy file_type || !jsonTruthy msg_ids then return .invalid
    else if !check_force_subscriptions genv ch1 ch2 user_id then return .blocked token
    else do
      let items ← pyIter msg_ids
      return .delivered items (items.filter fun x => !denv x)

/-- Copy-call sequence a start outcome performed. -/
def copiesOf : Except Unit StartRes → List Json
  | .ok (.delivered cs _) => cs
  | _ => []

/-! ## Webhook registration (src/setup_webhook.py, `set_webhook`) -/

/-- Outcome of one webhook-registration attempt. -/
inductive WebhookOutcome where
  /-- Registration (or already-set detection) succeeded. -/
  | success
  /-- Flood control: the server asks to retry after a delay. -/
  | retryAfter (secs : Nat)
  /-- A Telegram error other than flood control: logged, admins notified. -/
  | telegramError
  /-- Any other exception: logged, admins notified. -/
  | otherError

/-- Embeds the control flow of `set_webhook` over a list of per-attempt
outcomes: flood control sleeps and recurses into a full retry, every other
outcome ends the function.  The result is the number of attempts performed,
or `none` when the outcome list is exhausted while still retrying, which is
how a run that never stops retrying appears at every finite depth. -/
def setWebhookAttempts : List WebhookOutcome → Option Nat
  | [] => none
  | .retryAfter _ :: rest => (setWebhookAttempts rest).map (· + 1)
  | _ :: _ => some 1

/-! ## Operational lemmas about the dump and retrieval models -/

/-- Message identifiers passed to `copy_message` during a flush. -/
def attemptIdsOf : Option FlushOut → List Int
  | some o => o.attempts.map Msg.message_id
  | none => []

/-- Identifiers archived by a flush. -/
def dumpedOf : Option FlushOut → List Int
  | some o => o.dumped_ids
  | none => []

/-- Kind a flush stored in its token. -/
def fileTypeOf : Option FlushOut → List Char
  | some o => o.file_type
  | none => []

/-- Token a flush produced. -/
def tokenOf : Option FlushOut → Option (List Char)
  | some o => some o.token
  | none => none

/-- Message a flush replied to. -/
def replyToOf : Option FlushOut → Option Msg
  | some o => o.replyTo
  | none => none

theorem process_media_group_some (env : CopyEnv) (dict : List (String × List Msg))
    (mgid : String) (msgs : List Msg) (hl : lookupKey dict mgid = some msgs)
    (hne : msgs ≠ []) :
    process_media_group env dict mgid
      = (eraseKey dict mgid,
         some ⟨sortMsgs msgs, (sortMsgs msgs).filterMap env,
           if 1 < ((sortMsgs msgs).filterMap env).length then ['b'] else ['s'],
           generate_token
             (if 1 < ((sortMsgs msgs).filterMap env).length then ['b'] else ['s'])
             ((sortMsgs msgs).filterMap env),
           (sortMsgs msgs).getLast?⟩) := by
  unfold process_media_group
  rw [hl]
  simp only [Option.getD_some]
  rw [if_neg (by simp [hne])]

theorem process_media_group_noop (env : CopyEnv) (dict : List (String × List Msg))
    (mgid : String)
    (h : lookupKey dict mgid = none ∨ lookupKey dict mgid = some []) :
    process_media_group env dict mgid = (dict, none) := by
  unfold process_media_group
  rcases h with h | h <;> rw [h] <;> rfl

theorem lookupKey_eraseKey_self (d : List (String × List Msg)) (k : String) :
    lookupKey (eraseKey d k) k = none := by
  induction d with
  | nil => rfl
  | cons kv rest ih =>
    obtain ⟨k1, v⟩ := kv
    unfold eraseKey at ih ⊢
    by_cases h : k1 = k
    · rw [List.filter_cons, if_neg (by simp [h])]
      exact ih
    · rw [List.filter_cons, if_pos (by simp [h])]
      rw [lookupKey, if_neg h]
      exact ih

theorem lookupKey_eraseKey_other (d : List (String × List Msg)) (k k' : String)
    (h : k' ≠ k) : lookupKey (eraseKey d k) k' = lookupKey d k' := by
  induction d with
  | nil => rfl
  | cons kv rest ih =>
    obtain ⟨k1, v⟩ := kv
    unfold eraseKey at ih ⊢
    by_cases hk : k1 = k
    · rw [List.filter_cons, if_neg (by simp [hk])]
      rw [show lookupKey ((k1, v) :: rest) k' = lookupKey rest k' from by
        rw [lookupKey, if_neg (by rw [hk]; exact fun he => h he.symm)], ih]
    · rw [List.filter_cons, if_pos (by simp [hk])]
      by_cases he : k1 = k'
      · rw [lookupKey, if_pos he, lookupKey, if_pos he]
      · rw [lookupKey, if_neg he, lookupKey, if_neg he, ih]

theorem sortMsgs_sorted (msgs : List Msg) : List.Sorted msgLe (sortMsgs msgs) :=
  List.sorted_insertionSort msgLe msgs

theorem sortMsgs_perm (msgs : List Msg) : (sortMsgs msgs).Perm msgs :=
  List.perm_insertionSort msgLe msgs

theorem sorted_getLast_max : ∀ (l : List Msg), List.Sorted msgLe l →
    ∀ x ∈ l, ∀ m, l.getLast? = some m → x.message_id ≤ m.message_id := by
  intro l
  induction l with
  | nil => intro _ x hx; simp at hx
  | cons a tl ih =>
    intro hs x hx m hm
    cases tl with
    | nil =>
      simp at hx hm
      subst hx
      rw [hm]
    | cons b tl2 =>
      rw [List.getLast?_cons_cons] at hm
      have hs2 : List.Sorted msgLe (b :: tl2) := hs.of_cons
      rcases List.mem_cons.mp hx with h | h
      · subst h
        obtain ⟨hne', heq⟩ :=
          List.mem_getLast?_eq_getLast (Option.mem_def.mpr hm)
        have hmem : m ∈ b :: tl2 := by
          rw [heq]
          exact List.getLast_mem hne'
        exact (List.sorted_cons.mp hs).1 m hmem
      · exact ih hs2 x h m hm

theorem ok_bind_eq {α β : Type} (a : α) (f : α → Except Unit β) :
    ((Except.ok a : Except Unit α) >>= f) = f a := rfl

theorem start_command_arr (genv : MemberEnv) (ch1 ch2 : String) (u : Int)
    (denv : DeliverEnv) (tok : List Char) (ftv : Json) (xs : List Json)
    (hp : parse_token tok = .ok (ftv, .arr xs)) (hft : jsonTruthy ftv = true)
    (hxs : xs ≠ []) :
    start_command genv ch1 ch2 u denv [tok]
      = if check_force_subscriptions genv ch1 ch2 u
        then .ok (.delivered xs (xs.filter fun x => !denv x))
        else .ok (.blocked tok) := by
  have harr : jsonTruthy (.arr xs) = true := by
    unfold jsonTruthy
    simp [hxs]
  unfold start_command
  simp only [hp, ok_bind_eq, hft, harr, Bool.not_true, Bool.or_self]
  by_cases hg : check_force_subscriptions genv ch1 ch2 u = true
  · simp only [hg, Bool.not_true, if_pos rfl]
    rfl
  · rw [Bool.not_eq_true] at hg
    simp only [hg, Bool.not_false]
    rfl

theorem start_command_empty_ids (genv : MemberEnv) (ch1 ch2 : String) (u : Int)
    (denv : DeliverEnv) (tok : List Char) (ftv : Json)
    (hp : parse_token tok = .ok (ftv, .arr [])) :
    start_command genv ch1 ch2 u denv [tok] = .ok .invalid := by
  unfold start_command
  simp only [hp, ok_bind_eq, show jsonTruthy (Json.arr []) = false from rfl,
    Bool.not_false, Bool.or_true]
  rfl

/-! ## Claims -/

/-- C1: for every valid pair (kind, ids), with kind one of s or b and ids a
list of message identifiers, decoding the token produced by encoding returns
exactly the same pair: parse_token (generate_token kind ids) succeeds with
the kind string and the ids list. -/
theorem c1_token_roundtrip (kind : List Char) (hk : kind = ['s'] ∨ kind = ['b'])
    (ids : List Int) :
    parse_token (generate_token kind ids) = .ok (.str kind, .arr (ids.map .num)) := by
  have hp : ∀ c ∈ kind, plainChar c := by
    rcases hk with h | h <;> subst h <;> (intro c hc; simp at hc; subst hc; decide)
  exact parse_generate kind hp ids

/-- C1 witness: the roundtrip at kind s and ids 40, 41. -/
theorem c1_token_roundtrip_witness :
    parse_token (generate_token ['s'] [40, 41])
      = .ok (.str ['s'], .arr [.num 40, .num 41]) :=
  c1_token_roundtrip ['s'] (Or.inl rfl) [40, 41]

theorem natRevDigits_five : natRevDigits 5 = ['5'] := by
  rw [show (5 : Nat) = 4 + 1 from rfl, natRevDigits]
  norm_num
  rw [natRevDigits]
  exact ⟨rfl, rfl⟩

theorem intRepr_five : intRepr 5 = ['5'] := by
  unfold intRepr
  rw [if_neg (by norm_num)]
  show natRepr ((5 : Int).toNat) = ['5']
  rw [show ((5 : Int).toNat) = 5 from rfl]
  unfold natRepr
  rw [if_neg (by norm_num), natRevDigits_five]
  rfl

theorem jsonLoads_five : jsonLoads ['5'] = some (.num 5) := by
  unfold jsonLoads
  have h2 : parseValue ((['5'] : List Char).length + 1) ['5'] = some (.num 5, []) := by
    have h := parseValue_intRepr 1 5 [] (by intro c hc; exact absurd hc (by simp))
    rw [intRepr_five, List.append_nil] at h
    exact h
  rw [h2]
  rfl

theorem decode_token_NQ : decode_token ['N', 'Q', '=', '='] = .num 5 := by
  unfold decode_token
  rw [show b64decode ['N', 'Q', '=', '='] = some [53] from rfl]
  simp only []
  have hu : utf8Decode [53] = some ['5'] := by
    rw [utf8Decode, if_pos (by norm_num), utf8Decode]
    rfl
  rw [hu]
  simp only []
  rw [jsonLoads_five]
  rfl

/-- C2 (code bug evidence): the token NQ== is valid base64 of the JSON text 5,
so decode_token yields the number 5, and parse_token then evaluates the Python
expression t in 5, which raises TypeError; the claim and the spec say decoding
never raises.  The .error outcome is that raised exception. -/
theorem c2_parse_token_raises :
    decode_token ['N', 'Q', '=', '='] = .num 5 ∧
    parse_token ['N', 'Q', '=', '='] = .error () := by
  refine ⟨decode_token_NQ, ?_⟩
  unfold parse_token
  rw [decode_token_NQ]
  rfl

/-- C7 counterexample: the claim says set_webhook never retries more than once
(at most two attempts); a run whose first two attempts hit flood control and
whose third succeeds performs three attempts. -/
theorem c7_counterexample :
    ¬ ∀ (outcomes : List WebhookOutcome) (n : Nat),
        setWebhookAttempts outcomes = some n → n ≤ 2 := by
  intro h
  have := h [.retryAfter 1, .retryAfter 1, .success] 3 rfl
  omega

/-- C7 amended: on flood control set_webhook sleeps and calls itself again
with no retry bound: a run with k consecutive flood-control responses
followed by any other outcome performs exactly k plus one attempts, and a run
whose every attempt hits flood control never completes at any finite depth. -/
theorem c7_retry_unbounded :
    (∀ (k s : Nat) (o : WebhookOutcome) (rest : List WebhookOutcome),
      (∀ t, o ≠ .retryAfter t) →
      setWebhookAttempts (List.replicate k (.retryAfter s) ++ o :: rest)
        = some (k + 1)) ∧
    (∀ (n s : Nat), setWebhookAttempts (List.replicate n (.retryAfter s)) = none) := by
  constructor
  · intro k s o rest ho
    induction k with
    | zero =>
      rw [List.replicate_zero, List.nil_append]
      cases o with
      | retryAfter t => exact absurd rfl (ho t)
      | success => rfl
      | telegramError => rfl
      | otherError => rfl
    | succ k ih =>
      rw [List.replicate_succ, List.cons_append]
      rw [show setWebhookAttempts (.retryAfter s :: (List.replicate k (.retryAfter s)
        ++ o :: rest)) = (setWebhookAttempts (List.replicate k (.retryAfter s)
          ++ o :: rest)).map (· + 1) from rfl, ih]
      rfl
  · intro n s
    induction n with
    | zero => rfl
    | succ n ih =>
      rw [List.replicate_succ]
      rw [show setWebhookAttempts (.retryAfter s :: List.replicate n (.retryAfter s))
        = (setWebhookAttempts (List.replicate n (.retryAfter s))).map (· + 1) from rfl, ih]
      rfl

/-- C7 amended witness: two flood-control responses then success give three
attempts. -/
theorem c7_retry_unbounded_witness :
    setWebhookAttempts (List.replicate 2 (.retryAfter 1) ++ [.success]) = some 3 :=
  c7_retry_unbounded.1 2 1 .success [] fun _ h => WebhookOutcome.noConfusion h

/-- C8: the gate allows a user exactly when the membership lookup succeeds
with one of member, administrator or owner for both configured channels; a
raising lookup on either channel makes the gate block.  The embedded gate is
a total boolean function, so the check itself never raises. -/
theorem c8_gate_iff :
    (∀ (env : MemberEnv) (ch1 ch2 : String) (u : Int),
      check_force_subscriptions env ch1 ch2 u = true ↔
        ((∃ s, env ch1 u = .ok s ∧ s ∈ allowedStatuses) ∧
         (∃ s, env ch2 u = .ok s ∧ s ∈ allowedStatuses))) ∧
    (∀ (env : MemberEnv) (ch1 ch2 : String) (u : Int),
      (env ch1 u = .error () ∨ env ch2 u = .error ()) →
        check_force_subscriptions env ch1 ch2 u = false) := by
  have hsub : ∀ (env : MemberEnv) (u : Int) (ch : String),
      is_user_subscribed env u ch = true ↔
        ∃ s, env ch u = .ok s ∧ s ∈ allowedStatuses := by
    intro env u ch
    unfold is_user_subscribed
    cases henv : env ch u with
    | error e =>
      simp only [henv]
      constructor
      · intro h; exact absurd h (by simp)
      · rintro ⟨s, hs, _⟩; cases hs
    | ok s =>
      simp only [henv]
      constructor
      · intro h
        refine ⟨s, rfl, ?_⟩
        revert h
        cases s <;> decide
      · rintro ⟨s', hs', hmem⟩
        obtain rfl : s = s' := by injection hs'
        revert hmem
        cases s <;> decide
  constructor
  · intro env ch1 ch2 u
    unfold check_force_subscriptions
    rw [Bool.and_eq_true, hsub, hsub]
  · intro env ch1 ch2 u h
    unfold check_force_subscriptions
    rw [Bool.and_eq_false_iff]
    rcases h with h | h
    · left
      unfold is_user_subscribed
      rw [h]
    · right
      unfold is_user_subscribed
      rw [h]

/-- C8 witness: a lookup that raises for the first channel blocks the gate. -/
theorem c8_gate_iff_witness :
    check_force_subscriptions (fun _ _ => .error ()) "a" "b" 0 = false :=
  c8_gate_iff.2 (fun _ _ => .error ()) "a" "b" 0 (Or.inl rfl)

/-- C10: retrieval depends only on the token's ids, never its kind: for the
same ids list, the s-kind and b-kind tokens make start_command perform the
same sequence of copy deliveries under every gate environment and every
per-item delivery outcome. -/
theorem c10_kind_never_used :
    ∀ (genv : MemberEnv) (ch1 ch2 : String) (u : Int) (denv : DeliverEnv)
      (ids : List Int),
      copiesOf (start_command genv ch1 ch2 u denv [generate_token ['s'] ids])
        = copiesOf (start_command genv ch1 ch2 u denv [generate_token ['b'] ids]) := by
  intro genv ch1 ch2 u denv ids
  have hs : parse_token (generate_token ['s'] ids)
      = .ok (.str ['s'], .arr (ids.map .num)) :=
    parse_generate ['s'] (by intro c hc; simp at hc; subst hc; decide) ids
  have hb : parse_token (generate_token ['b'] ids)
      = .ok (.str ['b'], .arr (ids.map .num)) :=
    parse_generate ['b'] (by intro c hc; simp at hc; subst hc; decide) ids
  by_cases hids : ids = []
  · subst hids
    rw [start_command_empty_ids genv ch1 ch2 u denv _ _ hs,
      start_command_empty_ids genv ch1 ch2 u denv _ _ hb]
  · have hne : ids.map Json.num ≠ [] := by simp [hids]
    rw [start_command_arr genv ch1 ch2 u denv _ _ _ hs rfl hne,
      start_command_arr genv ch1 ch2 u denv _ _ _ hb rfl hne]
    by_cases hg : check_force_subscriptions genv ch1 ch2 u = true
    · rw [if_pos hg, if_pos hg]
    · rw [if_neg hg, if_neg hg]
      rfl

/-- C3: a non-empty media-group flush archives the collected messages in
ascending order of their original remote message identifier regardless of
arrival order (the attempted copy sequence is sorted and is a permutation of
the collected identifiers); in particular, for arrival order 42, 40, 41 the
copy calls happen at 40, 41, 42 and, with every copy succeeding, the token
decodes to kind b with the archived identifiers in that order. -/
theorem c3_flush_sorted :
    (∀ (env : CopyEnv) (dict : List (String × List Msg)) (mgid : String)
      (msgs : List Msg), lookupKey dict mgid = some msgs → msgs ≠ [] →
      (process_media_group env dict mgid).2.isSome = true ∧
      List.Sorted (· ≤ ·) (attemptIdsOf (process_media_group env dict mgid).2) ∧
      (attemptIdsOf (process_media_group env dict mgid).2).Perm
        (msgs.map Msg.message_id)) ∧
    (attemptIdsOf (process_media_group (fun m => some (m.message_id + 60))
        [("g", [⟨5, 42⟩, ⟨5, 40⟩, ⟨5, 41⟩])] "g").2 = [40, 41, 42] ∧
     tokenOf (process_media_group (fun m => some (m.message_id + 60))
        [("g", [⟨5, 42⟩, ⟨5, 40⟩, ⟨5, 41⟩])] "g").2
       = some (generate_token ['b'] [100, 101, 102]) ∧
     parse_token (generate_token ['b'] [100, 101, 102])
       = .ok (.str ['b'], .arr [.num 100, .num 101, .num 102])) := by
  constructor
  · intro env dict mgid msgs hl hne
    rw [process_media_group_some env dict mgid msgs hl hne]
    refine ⟨rfl, ?_, ?_⟩
    · show List.Sorted (· ≤ ·) ((sortMsgs msgs).map Msg.message_id)
      rw [List.Sorted, List.pairwise_map]
      exact sortMsgs_sorted msgs
    · exact (sortMsgs_perm msgs).map Msg.message_id
  · refine ⟨rfl, rfl, ?_⟩
    exact parse_generate ['b'] (by intro c hc; simp at hc; subst hc; decide)
      [100, 101, 102]

/-- C3 witness: the general conjunct applied to a two-message group arriving
out of order with every copy failing. -/
theorem c3_flush_sorted_witness :
    (process_media_group (fun _ => none) [("h", [(⟨1, 2⟩ : Msg), ⟨1, 1⟩])] "h").2.isSome
      = true ∧
    List.Sorted (· ≤ ·) (attemptIdsOf
      (process_media_group (fun _ => none) [("h", [(⟨1, 2⟩ : Msg), ⟨1, 1⟩])] "h").2) ∧
    (attemptIdsOf (process_media_group (fun _ => none)
      [("h", [(⟨1, 2⟩ : Msg), ⟨1, 1⟩])] "h").2).Perm
        (([⟨1, 2⟩, ⟨1, 1⟩] : List Msg).map Msg.message_id) :=
  c3_flush_sorted.1 (fun _ => none) [("h", [⟨1, 2⟩, ⟨1, 1⟩])] "h"
    [⟨1, 2⟩, ⟨1, 1⟩] rfl (by simp)

/-- C4: remote copy failures are isolated per item.  During archival the
attempted copy sequence does not depend on which copies fail, a successful
copy's archived identifier always enters the token and every archived
identifier comes from a successful copy; during retrieval the delivered copy
sequence does not depend on which deliveries fail and, for a valid token,
every id is attempted. -/
theorem c4_failure_isolated :
    (∀ (env env' : CopyEnv) (dict : List (String × List Msg)) (mgid : String),
      attemptIdsOf (process_media_group env dict mgid).2
        = attemptIdsOf (process_media_group env' dict mgid).2) ∧
    (∀ (env : CopyEnv) (dict : List (String × List Msg)) (mgid : String)
      (msgs : List Msg), lookupKey dict mgid = some msgs →
      ∀ m ∈ msgs, ∀ a : Int, env m = some a →
        a ∈ dumpedOf (process_media_group env dict mgid).2) ∧
    (∀ (env : CopyEnv) (dict : List (String × List Msg)) (mgid : String),
      ∀ a ∈ dumpedOf (process_media_group env dict mgid).2,
        ∃ m, env m = some a ∧
          ∃ msgs, lookupKey dict mgid = some msgs ∧ m ∈ msgs) ∧
    (∀ (genv : MemberEnv) (ch1 ch2 : String) (u : Int) (denv denv' : DeliverEnv)
      (args : List (List Char)),
      copiesOf (start_command genv ch1 ch2 u denv args)
        = copiesOf (start_command genv ch1 ch2 u denv' args)) ∧
    (∀ (genv : MemberEnv) (ch1 ch2 : String) (u : Int) (denv : DeliverEnv)
      (ids : List Int), ids ≠ [] →
      check_force_subscriptions genv ch1 ch2 u = true →
      copiesOf (start_command genv ch1 ch2 u denv [generate_token ['s'] ids])
        = ids.map .num) := by
  refine ⟨?_, ?_, ?_, ?_, ?_⟩
  · intro env env' dict mgid
    cases hl : lookupKey dict mgid with
    | none =>
      rw [process_media_group_noop env dict mgid (Or.inl hl),
        process_media_group_noop env' dict mgid (Or.inl hl)]
    | some msgs =>
      by_cases hne : msgs = []
      · subst hne
        rw [process_media_group_noop env dict mgid (Or.inr hl),
          process_media_group_noop env' dict mgid (Or.inr hl)]
      · rw [process_media_group_some env dict mgid msgs hl hne,
          process_media_group_some env' dict mgid msgs hl hne]
        rfl
  · intro env dict mgid msgs hl m hm a ha
    have hne : msgs ≠ [] := List.ne_nil_of_mem hm
    rw [process_media_group_some env dict mgid msgs hl hne]
    show a ∈ (sortMsgs msgs).filterMap env
    exact List.mem_filterMap.mpr ⟨m, (sortMsgs_perm msgs).mem_iff.mpr hm, ha⟩
  · intro env dict mgid a ha
    cases hl : lookupKey dict mgid with
    | none =>
      rw [process_media_group_noop env dict mgid (Or.inl hl)] at ha
      exact absurd ha (by simp [dumpedOf])
    | some msgs =>
      by_cases hne : msgs = []
      · subst hne
        rw [process_media_group_noop env dict mgid (Or.inr hl)] at ha
        exact absurd ha (by simp [dumpedOf])
      · rw [process_media_group_some env dict mgid msgs hl hne] at ha
        obtain ⟨m, hm, ha⟩ := List.mem_filterMap.mp ha
        exact ⟨m, ha, msgs, rfl, (sortMsgs_perm msgs).mem_iff.mp hm⟩
  · intro genv ch1 ch2 u denv denv' args
    cases args with
    | nil => rfl
    | cons tok rest =>
      unfold start_command
      simp only []
      cases hp : parse_token tok with
      | error e => rfl
      | ok p =>
        obtain ⟨ftv, idsv⟩ := p
        simp only [ok_bind_eq]
        by_cases h1 : (!jsonTruthy ftv || !jsonTruthy idsv) = true
        · rw [if_pos h1, if_pos h1]
        · rw [if_neg h1, if_neg h1]
          by_cases h2 : (!check_force_subscriptions genv ch1 ch2 u) = true
          · rw [if_pos h2, if_pos h2]
          · rw [if_neg h2, if_neg h2]
            cases hi : pyIter idsv with
            | error e => rfl
            | ok items => rfl
  · intro genv ch1 ch2 u denv ids hne hg
    have hs : parse_token (generate_token ['s'] ids)
        = .ok (.str ['s'], .arr (ids.map .num)) :=
      parse_generate ['s'] (by intro c hc; simp at hc; subst hc; decide) ids
    rw [start_command_arr genv ch1 ch2 u denv _ _ _ hs rfl (by simp [hne]), if_pos hg]
    rfl

/-- C4 witness: a group whose only copy succeeds puts the archived identifier
in the token, and a retrieval whose every delivery fails still attempts the
whole ids list. -/
theorem c4_failure_isolated_witness :
    ((101 : Int) ∈ dumpedOf (process_media_group (fun m => some (m.message_id + 100))
      [("g", [(⟨0, 1⟩ : Msg)])] "g").2) ∧
    copiesOf (start_command (fun _ _ => .ok .member) "a" "b" 0 (fun _ => false)
      [generate_token ['s'] [7]]) = [.num 7] :=
  ⟨c4_failure_isolated.2.1 (fun m => some (m.message_id + 100))
      [("g", [⟨0, 1⟩])] "g" [⟨0, 1⟩] rfl ⟨0, 1⟩ (by simp) 101 rfl,
   c4_failure_isolated.2.2.2.2 (fun _ _ => .ok .member) "a" "b" 0 (fun _ => false)
      [7] (by simp) rfl⟩

/-- C5: a non-empty flush derives the token kind from the count of
successfully archived messages, b exactly when more than one succeeded and s
otherwise, and delivers the link as a reply to the last collected message in
sorted order, which is a collected message of maximal identifier. -/
theorem c5_kind_and_reply :
    ∀ (env : CopyEnv) (dict : List (String × List Msg)) (mgid : String)
      (msgs : List Msg), lookupKey dict mgid = some msgs → msgs ≠ [] →
      (fileTypeOf (process_media_group env dict mgid).2
        = if 1 < (dumpedOf (process_media_group env dict mgid).2).length
          then ['b'] else ['s']) ∧
      (replyToOf (process_media_group env dict mgid).2).isSome = true ∧
      (∀ m, replyToOf (process_media_group env dict mgid).2 = some m →
        m ∈ msgs ∧ ∀ x ∈ msgs, x.message_id ≤ m.message_id) := by
  intro env dict mgid msgs hl hne
  rw [process_media_group_some env dict mgid msgs hl hne]
  have hsne : sortMsgs msgs ≠ [] := by
    intro h
    apply hne
    have hlen := (sortMsgs_perm msgs).length_eq
    rw [h] at hlen
    exact List.length_eq_zero.mp hlen.symm
  refine ⟨rfl, ?_, ?_⟩
  · show ((sortMsgs msgs).getLast?).isSome = true
    rw [List.getLast?_eq_getLast_of_ne_nil hsne]
    rfl
  · intro m hm
    show m ∈ msgs ∧ _
    have hmem : m ∈ sortMsgs msgs := by
      obtain ⟨hne', heq⟩ := List.mem_getLast?_eq_getLast (Option.mem_def.mpr hm)
      rw [heq]
      exact List.getLast_mem hne'
    constructor
    · exact (sortMsgs_perm msgs).mem_iff.mp hmem
    · intro x hx
      exact sorted_getLast_max (sortMsgs msgs) (sortMsgs_sorted msgs) x
        ((sortMsgs_perm msgs).mem_iff.mpr hx) m hm

/-- C5 witness: for a concrete group with exactly one successful copy the
kind is s and the reply target is the maximal-identifier message. -/
theorem c5_kind_and_reply_witness :
    (fileTypeOf (process_media_group (fun m => if m.message_id = 1 then some 9 else none)
      [("g", [(⟨0, 2⟩ : Msg), ⟨0, 1⟩])] "g").2
        = if 1 < (dumpedOf (process_media_group
            (fun m => if m.message_id = 1 then some 9 else none)
            [("g", [(⟨0, 2⟩ : Msg), ⟨0, 1⟩])] "g").2).length then ['b'] else ['s']) ∧
    (replyToOf (process_media_group (fun m => if m.message_id = 1 then some 9 else none)
      [("g", [(⟨0, 2⟩ : Msg), ⟨0, 1⟩])] "g").2).isSome = true ∧
    (∀ m, replyToOf (process_media_group
        (fun m => if m.message_id = 1 then some 9 else none)
        [("g", [(⟨0, 2⟩ : Msg), ⟨0, 1⟩])] "g").2 = some m →
      m ∈ ([⟨0, 2⟩, ⟨0, 1⟩] : List Msg) ∧
      ∀ x ∈ ([⟨0, 2⟩, ⟨0, 1⟩] : List Msg), x.message_id ≤ m.message_id) :=
  c5_kind_and_reply (fun m => if m.message_id = 1 then some 9 else none)
    [("g", [⟨0, 2⟩, ⟨0, 1⟩])] "g" [⟨0, 2⟩, ⟨0, 1⟩] rfl (by simp)

/-- C6 counterexample: the claim says every token produced by the dump
workflow has a non-empty ids list, but a flush of a non-empty group whose
every copy fails still generates and delivers a token, and that token decodes
to an empty ids list. -/
theorem c6_counterexample :
    tokenOf (process_media_group (fun _ => none) [("g", [(⟨0, 10⟩ : Msg)])] "g").2
      = some (generate_token ['s'] []) ∧
    parse_token (generate_token ['s'] []) = .ok (.str ['s'], .arr []) := by
  refine ⟨rfl, ?_⟩
  exact parse_generate ['s'] (by intro c hc; simp at hc; subst hc; decide) []

/-- C6 amended: every token produced by the dump workflow has a non-empty ids
list provided at least one archival copy succeeded: the single-message path
only emits a token after a successful copy and that token carries exactly one
identifier, and a media-group flush with at least one successful copy emits a
token carrying exactly the archived identifiers, a non-empty list.  (A flush
whose copies all fail emits a token whose ids list is empty.) -/
theorem c6_ids_nonempty :
    (∀ (admins : List Int) (u : Int) (cid : Int) (m : Msg)
      (dict : List (String × List Msg)), u ∈ admins →
      process_file_messages admins u (some cid) none m dict
        = .ok (.single (generate_token ['s'] [cid])) ∧
      parse_token (generate_token ['s'] [cid])
        = .ok (.str ['s'], .arr [.num cid])) ∧
    (∀ (env : CopyEnv) (dict : List (String × List Msg)) (mgid : String),
      dumpedOf (process_media_group env dict mgid).2 ≠ [] →
      tokenOf (process_media_group env dict mgid).2
        = some (generate_token (fileTypeOf (process_media_group env dict mgid).2)
            (dumpedOf (process_media_group env dict mgid).2)) ∧
      parse_token (generate_token (fileTypeOf (process_media_group env dict mgid).2)
          (dumpedOf (process_media_group env dict mgid).2))
        = .ok (.str (fileTypeOf (process_media_group env dict mgid).2),
            .arr ((dumpedOf (process_media_group env dict mgid).2).map .num)) ∧
      (dumpedOf (process_media_group env dict mgid).2).map Json.num ≠ []) := by
  constructor
  · intro admins u cid m dict h
    constructor
    · unfold process_file_messages
      rw [if_neg (not_not_intro h)]
    · exact parse_generate ['s'] (by intro c hc; simp at hc; subst hc; decide) [cid]
  · intro env dict mgid hd
    have hsome : ∃ msgs, lookupKey dict mgid = some msgs ∧ msgs ≠ [] := by
      cases hl : lookupKey dict mgid with
      | none =>
        rw [process_media_group_noop env dict mgid (Or.inl hl)] at hd
        exact absurd rfl hd
      | some msgs =>
        by_cases hne : msgs = []
        · subst hne
          rw [process_media_group_noop env dict mgid (Or.inr hl)] at hd
          exact absurd rfl hd
        · exact ⟨msgs, rfl, hne⟩
    obtain ⟨msgs, hl, hne⟩ := hsome
    rw [process_media_group_some env dict mgid msgs hl hne] at hd ⊢
    refine ⟨rfl, ?_, ?_⟩
    · show parse_token (generate_token
        (if 1 < ((sortMsgs msgs).filterMap env).length then ['b'] else ['s'])
        ((sortMsgs msgs).filterMap env)) = _
      by_cases hlen : 1 < ((sortMsgs msgs).filterMap env).length
      · rw [if_pos hlen]
        exact parse_generate ['b'] (by intro c hc; simp at hc; subst hc; decide) _
      · rw [if_neg hlen]
        exact parse_generate ['s'] (by intro c hc; simp at hc; subst hc; decide) _
    · show ((sortMsgs msgs).filterMap env).map Json.num ≠ []
      simp only [ne_eq, List.map_eq_nil_iff]
      exact hd

/-- C6 amended witness: the single path at a concrete admin upload, and a
group flush whose single copy succeeds. -/
theorem c6_ids_nonempty_witness :
    (process_file_messages [1] 1 (some 9) none ⟨0, 0⟩ []
        = .ok (.single (generate_token ['s'] [9])) ∧
      parse_token (generate_token ['s'] [9]) = .ok (.str ['s'], .arr [.num 9])) ∧
    ((dumpedOf (process_media_group (fun _ => some 9)
        [("g", [(⟨0, 1⟩ : Msg)])] "g").2).map Json.num ≠ []) :=
  ⟨c6_ids_nonempty.1 [1] 1 9 ⟨0, 0⟩ [] (by simp),
   (c6_ids_nonempty.2 (fun _ => some 9) [("g", [⟨0, 1⟩])] "g" (by decide)).2.2⟩

/-- C9 counterexample: the claim says the flush removes the group's entry so
the identifier is no longer present afterwards, but for an existing empty
entry the early return skips the removal: after the flush the identifier is
still present, mapped to the empty list. -/
theorem c9_counterexample :
    process_media_group (fun _ => none) [("g", ([] : List Msg))] "g"
      = ([("g", [])], none) ∧
    lookupKey (process_media_group (fun _ => none)
      [("g", ([] : List Msg))] "g").1 "g" = some [] := ⟨rfl, rfl⟩

/-- C9 amended: the flush removes the group's entry and archives exactly when
the entry exists and is non-empty; when the entry is absent or present but
empty, the flush is a complete no-op that leaves the table unchanged, so a
present empty entry stays present; entries for other group identifiers are
never modified. -/
theorem c9_flush_table :
    ∀ (env : CopyEnv) (dict : List (String × List Msg)) (mgid : String),
      (∀ msgs, lookupKey dict mgid = some msgs → msgs ≠ [] →
        lookupKey (process_media_group env dict mgid).1 mgid = none ∧
        (process_media_group env dict mgid).2.isSome = true) ∧
      ((lookupKey dict mgid = none ∨ lookupKey dict mgid = some []) →
        process_media_group env dict mgid = (dict, none)) ∧
      (∀ k, k ≠ mgid →
        lookupKey (process_media_group env dict mgid).1 k = lookupKey dict k) := by
  intro env dict mgid
  refine ⟨?_, ?_, ?_⟩
  · intro msgs hl hne
    rw [process_media_group_some env dict mgid msgs hl hne]
    exact ⟨lookupKey_eraseKey_self dict mgid, rfl⟩
  · exact process_media_group_noop env dict mgid
  · intro k hk
    cases hl : lookupKey dict mgid with
    | none => rw [process_media_group_noop env dict mgid (Or.inl hl)]
    | some msgs =>
      by_cases hne : msgs = []
      · subst hne
        rw [process_media_group_noop env dict mgid (Or.inr hl)]
      · rw [process_media_group_some env dict mgid msgs hl hne]
        exact lookupKey_eraseKey_other dict mgid k hk

/-- C9 amended witness: a non-empty entry is removed while an unrelated entry
survives unchanged. -/
theorem c9_flush_table_witness :
    (lookupKey (process_media_group (fun _ => none)
        [("g", [(⟨0, 1⟩ : Msg)]), ("h", [(⟨0, 2⟩ : Msg)])] "g").1 "g" = none ∧
      (process_media_group (fun _ => none)
        [("g", [(⟨0, 1⟩ : Msg)]), ("h", [(⟨0, 2⟩ : Msg)])] "g").2.isSome = true) ∧
    lookupKey (process_media_group (fun _ => none)
        [("g", [(⟨0, 1⟩ : Msg)]), ("h", [(⟨0, 2⟩ : Msg)])] "g").1 "h"
      = lookupKey [("g", [(⟨0, 1⟩ : Msg)]), ("h", [(⟨0, 2⟩ : Msg)])] "h" :=
  ⟨(c9_flush_table (fun _ => none) [("g", [⟨0, 1⟩]), ("h", [⟨0, 2⟩])] "g").1
      [⟨0, 1⟩] rfl (by simp),
   (c9_flush_table (fun _ => none) [("g", [⟨0, 1⟩]), ("h", [⟨0, 2⟩])] "g").2.2
      "h" (by simp)⟩

end Storeman
